import Mathlib

/-!
Verification of the buu-assets asset resolution and polling engine
(src/dist/buu-assets.js) against its natural-language specification.

The development shallowly embeds the relevant parts of the source:

* the pure URL resolvers (resolveMeshUrl, resolveAllFormats, resolveSplatUrl,
  resolveAllSplatUrls), both over typed descriptor records and over a small
  JavaScript value universe (to reason about totality of the field accesses);
* the world loader attempt loop of loadWorld (lines 481-557), as a
  fuel-indexed recursion over virtual time;
* the model loading subsystem (loadModel, _startModelLoad, cancelPoll,
  clearCache, lines 257-405), as a deterministic event-loop simulator with
  virtual time, a timer queue, the cache store and the poll registry.

Machine integers do not occur; all times are natural-number milliseconds.
-/

namespace BuuAssets

/-! ## Typed descriptor model

A descriptor sub-record carrying an optional `url` field, as produced by the
buu.fun API.  `none` in an `Option UrlRec` position models an absent
sub-record, `none` in the `url` field models an absent url field. -/

structure UrlRec where
  url : Option String
deriving DecidableEq, Repr

/-- JavaScript truthiness test used by the source on each candidate
sub-record: `rec && rec.url` is truthy exactly when the sub-record is
present and its url field holds a nonempty string; the source then returns
that url.  This helper captures one `if (x && x.url) return x.url;` arm. -/
def truthyUrl (r : Option UrlRec) : Option String :=
  match r with
  | none => none
  | some rec0 =>
    match rec0.url with
    | none => none
    | some s => if s.isEmpty then none else some s

/-- Model descriptor: the three ranked mesh sub-records read by
`resolveMeshUrl` (source lines 160-171). -/
structure ModelData where
  texturedMesh : Option UrlRec
  optimizedMesh : Option UrlRec
  mesh : Option UrlRec
deriving DecidableEq, Repr

/-- Translation of `resolveMeshUrl` (source lines 160-171): try
`texturedMesh`, then `optimizedMesh`, then `mesh`, returning the first
truthy url, else null (`none`). -/
def resolveMeshUrl (modelData : ModelData) : Option String :=
  match truthyUrl modelData.texturedMesh with
  | some u => some u
  | none =>
    match truthyUrl modelData.optimizedMesh with
    | some u => some u
    | none => truthyUrl modelData.mesh

/-- Splat file collection of a world descriptor (the `splatFiles` field). -/
structure SplatFiles where
  lowRes : Option UrlRec
  mediumRes : Option UrlRec
  highRes : Option UrlRec
deriving DecidableEq, Repr

/-- World descriptor: the fields read by `resolveSplatUrl`,
`resolveAllSplatUrls` and the result construction in `loadWorld`. -/
structure WorldData where
  splatFiles : Option SplatFiles
  panoMedia : Option UrlRec
  thumbnailMedia : Option UrlRec
  colliderMesh : Option UrlRec
  inputImages : Option (List String)
  caption : Option String
  displayName : Option String
  status : Option String
deriving DecidableEq, Repr

/-- Translation of `resolveSplatUrl` (source lines 418-431): inside
`splatFiles`, try `highRes`, then `mediumRes`, then `lowRes`. -/
def resolveSplatUrl (worldData : WorldData) : Option String :=
  match worldData.splatFiles with
  | none => none
  | some files =>
    match truthyUrl files.highRes with
    | some u => some u
    | none =>
      match truthyUrl files.mediumRes with
      | some u => some u
      | none => truthyUrl files.lowRes

/-- Result shape of `resolveAllSplatUrls`. -/
structure SplatTiers where
  lowRes : Option String
  mediumRes : Option String
  highRes : Option String
deriving DecidableEq, Repr

/-- Translation of `resolveAllSplatUrls` (source lines 439-446):
`var files = worldData.splatFiles || {}` and then
`(files.tier && files.tier.url) || null` per tier; the `|| null` collapses
a falsy (absent or empty) url to null exactly as `truthyUrl` does. -/
def resolveAllSplatUrls (worldData : WorldData) : SplatTiers :=
  let files := worldData.splatFiles.getD ⟨none, none, none⟩
  { lowRes := truthyUrl files.lowRes
    mediumRes := truthyUrl files.mediumRes
    highRes := truthyUrl files.highRes }

/-- First-of-two choice on optional strings, used to state the relation
between the best-pick resolvers and the all-tiers resolver. -/
def firstSome (a b : Option String) : Option String :=
  match a with
  | some u => some u
  | none => b

/-! ## JavaScript value embedding for the totality claim (C9)

The typed resolvers above fix a record shape.  To reason about the source
claim that the resolvers never throw on a descriptor with an arbitrary
subset of fields, we re-embed them over a small JavaScript value universe
in which property access is fallible exactly as in JavaScript: reading a
property of `undefined` or `null` raises a TypeError, every other access
succeeds (a missing property yields `undefined`). -/

inductive JsVal where
  | undef : JsVal
  | nul : JsVal
  | str : String → JsVal
  | obj : List (String × JsVal) → JsVal

/-- JavaScript truthiness of the values in our universe: objects are
truthy, strings are truthy unless empty, `undefined` and `null` are
falsy. -/
def jsTruthy : JsVal → Bool
  | .undef => false
  | .nul => false
  | .str s => !s.isEmpty
  | .obj _ => true

/-- Tests whether a value is an object (a descriptor). -/
def isObjVal : JsVal → Bool
  | .obj _ => true
  | _ => false

/-- Tests whether property access on a value succeeds in JavaScript:
everything except `undefined` and `null`. -/
def accessOk : JsVal → Bool
  | .undef => false
  | .nul => false
  | _ => true

/-- JavaScript property read: `TypeError` on `undefined`/`null`, the bound
value (or `undefined` when the property is missing) on an object, and
`undefined` for the properties we read on a primitive string. -/
def getField : JsVal → String → Except String JsVal
  | .undef, f => .error ("TypeError: cannot read property " ++ f)
  | .nul, f => .error ("TypeError: cannot read property " ++ f)
  | .str _, _ => .ok .undef
  | .obj fields, f => .ok (((fields.find? (fun p => p.1 == f)).map (fun p => p.2)).getD .undef)

/-- One `if (x && x.url) return x.url;` arm of the source resolvers over
JavaScript values: evaluates `x.url` only behind the truthiness guard on
`x`, as the source's `&&` does, and reports whether a truthy url was
found. -/
def pickUrl (x : JsVal) : Except String (Option JsVal) := do
  if jsTruthy x then
    let u ← getField x "url"
    if jsTruthy u then return (some u) else return none
  else
    return none

/-- Translation of `resolveMeshUrl` (source lines 160-171) over JavaScript
values, keeping every property access explicit and fallible. -/
def resolveMeshUrlJs (modelData : JsVal) : Except String JsVal := do
  let t ← getField modelData "texturedMesh"
  match (← pickUrl t) with
  | some u => return u
  | none =>
    let o ← getField modelData "optimizedMesh"
    match (← pickUrl o) with
    | some u => return u
    | none =>
      let me ← getField modelData "mesh"
      match (← pickUrl me) with
      | some u => return u
      | none => return .nul

/-- Translation of `resolveAllFormats` (source lines 179-193): resolve the
main descriptor, then — behind truthiness guards — the nested `obj` and
`fbx` sub-descriptors, through `resolveMeshUrl`. -/
def resolveAllFormatsJs (modelData : JsVal) : Except String JsVal := do
  let glb ← resolveMeshUrlJs modelData
  let o ← getField modelData "obj"
  let objUrl ← if jsTruthy o then resolveMeshUrlJs o else pure JsVal.nul
  let f ← getField modelData "fbx"
  let fbxUrl ← if jsTruthy f then resolveMeshUrlJs f else pure JsVal.nul
  return .obj [("glb", glb), ("obj", objUrl), ("fbx", fbxUrl)]

/-- Translation of `resolveSplatUrl` (source lines 418-431) over JavaScript
values: all tier accesses happen inside the `if (worldData.splatFiles)`
guard. -/
def resolveSplatUrlJs (worldData : JsVal) : Except String JsVal := do
  let sf ← getField worldData "splatFiles"
  if jsTruthy sf then
    let hi ← getField sf "highRes"
    match (← pickUrl hi) with
    | some u => return u
    | none =>
      let mid ← getField sf "mediumRes"
      match (← pickUrl mid) with
      | some u => return u
      | none =>
        let lo ← getField sf "lowRes"
        match (← pickUrl lo) with
        | some u => return u
        | none => return .nul
  else
    return .nul

/-- One `(files.tier && files.tier.url) || null` slot of
`resolveAllSplatUrls`: the truthy url if present, otherwise null. -/
def slotUrl (tier : JsVal) : Except String JsVal := do
  match (← pickUrl tier) with
  | some u => return u
  | none => return .nul

/-- Translation of `resolveAllSplatUrls` (source lines 439-446) over
JavaScript values: `var files = worldData.splatFiles || {}` followed by the
three guarded slot reads. -/
def resolveAllSplatUrlsJs (worldData : JsVal) : Except String JsVal := do
  let sf ← getField worldData "splatFiles"
  let files := if jsTruthy sf then sf else JsVal.obj []
  let lo ← getField files "lowRes"
  let loUrl ← slotUrl lo
  let mid ← getField files "mediumRes"
  let midUrl ← slotUrl mid
  let hi ← getField files "highRes"
  let hiUrl ← slotUrl hi
  return .obj [("lowRes", loUrl), ("mediumRes", midUrl), ("highRes", hiUrl)]

/-- Success test for the fallible embedding. -/
def isOkE (e : Except String JsVal) : Bool :=
  match e with
  | .ok _ => true
  | .error _ => false

/-! ## World loader attempt loop (C6)

`loadWorld` (source lines 466-558) wraps a retry loop in a promise.  We
model a single world task's attempt loop as a fuel-indexed recursion over
virtual time: each attempt fires at `fireT`, its fetch completes at
`fireT + dur k`, and — exactly as the source decides at completion time —
either stops or recurses with the next fire time one poll interval later.
The promise is represented explicitly with its `resolved` guard. -/

/-- Structured result object built by `loadWorld` on every successful fetch
(source lines 493-505). -/
structure WorldResult where
  worldId : String
  splatUrl : Option String
  splats : SplatTiers
  panoramaUrl : Option String
  thumbnailUrl : Option String
  colliderMeshUrl : Option String
  inputImages : List String
  caption : Option String
  displayName : Option String
  status : Option String
  raw : WorldData
deriving DecidableEq, Repr

/-- State of the promise returned by `loadWorld`. -/
inductive PState where
  | pending : PState
  | resolvedW : WorldResult → PState
  | rejectedW : PState
deriving DecidableEq, Repr

/-- JavaScript `s || null` on an optional string field: collapses an absent
or empty string to null. -/
def orNullStr (s : Option String) : Option String :=
  match s with
  | none => none
  | some s => if s.isEmpty then none else some s

/-- Construction of the result object of `loadWorld` (source lines
493-505); `(x && x.url) || null` accesses reuse `truthyUrl`. -/
def buildWorldResult (worldId : String) (w : WorldData) : WorldResult :=
  { worldId := worldId
    splatUrl := resolveSplatUrl w
    splats := resolveAllSplatUrls w
    panoramaUrl := truthyUrl w.panoMedia
    thumbnailUrl := truthyUrl w.thumbnailMedia
    colliderMeshUrl := truthyUrl w.colliderMesh
    inputImages := w.inputImages.getD []
    caption := orNullStr w.caption
    displayName := orNullStr w.displayName
    status := orNullStr w.status
    raw := w }

/-- Readiness test of `loadWorld` (source line 508):
`!!(splatUrl || result.panoramaUrl)`; both candidates are already
none-or-nonempty, so truthiness is presence. -/
def worldIsReady (r : WorldResult) : Bool :=
  r.splatUrl.isSome || r.panoramaUrl.isSome

/-- Outcome of one world descriptor fetch. -/
inductive WFetch where
  | fetchErr : WFetch
  | fetchOk : WorldData → WFetch
deriving DecidableEq, Repr

/-- Error callback invocations of the world task. -/
inductive WErr where
  | wFetchErr : WErr
  | wMaxPoll : WErr
deriving DecidableEq, Repr

/-- Observable history of one `loadWorld` run: promise state, attempt fire
times, `onReady` and `onError` invocations, and whether the cache entry was
marked ready. -/
structure WRun where
  promise : PState
  fetchTimes : List Nat
  readyCalls : List WorldResult
  errCalls : List WErr
  cacheReady : Bool
deriving DecidableEq, Repr

/-- Resolved options of `loadWorld`. -/
structure WOpts where
  poll : Bool
  pollInterval : Nat
  maxPollTime : Nat
deriving DecidableEq, Repr

/-- Resolve the promise if it is still pending (`if (!resolved) { resolved
= true; resolve(result); }`). -/
def resolveOnce (p : PState) (r : WorldResult) : PState :=
  match p with
  | .pending => .resolvedW r
  | q => q

/-- Reject the promise if it is still pending. -/
def rejectOnce (p : PState) : PState :=
  match p with
  | .pending => .rejectedW
  | q => q

/-- The initial run state: promise pending, nothing observed. -/
def worldInit : WRun := ⟨.pending, [], [], [], false⟩

/-- Translation of the `attempt` loop of `loadWorld` (source lines
485-556).  `beh k` is the outcome of the k-th fetch, `dur k` its duration;
an attempt firing at `fireT` completes at `fireT + dur k`, which is the
`Date.now()` at which the source compares the elapsed time against
`maxPollTime` (task start is time 0).  On a successful fetch: if the result
is ready, mark the cache, resolve if pending and invoke `onReady`;
otherwise if polling is allowed and the ceiling not yet reached, resolve if
pending with the partial result and schedule the next attempt one interval
later; otherwise resolve if pending and, when polling was enabled, report
`wMaxPoll`.  On a fetch error: report it, then retry under the same policy,
or reject if the promise is still pending.  (In the single-task loop the
poll-registry bookkeeping of the source has no observable effect, so it is
not tracked here.) -/
def worldGo (worldId : String) (o : WOpts) (beh : Nat → WFetch) (dur : Nat → Nat) :
    Nat → Nat → Nat → WRun → WRun
  | 0, _, _, acc => acc
  | fuel + 1, fireT, k, acc =>
    let acc1 := { acc with fetchTimes := acc.fetchTimes ++ [fireT] }
    let doneT := fireT + dur k
    match beh k with
    | .fetchOk w =>
      let r := buildWorldResult worldId w
      if worldIsReady r then
        { acc1 with cacheReady := true,
                    promise := resolveOnce acc1.promise r,
                    readyCalls := acc1.readyCalls ++ [r] }
      else if o.poll && decide (doneT < o.maxPollTime) then
        worldGo worldId o beh dur fuel (doneT + o.pollInterval) (k + 1)
          { acc1 with promise := resolveOnce acc1.promise r }
      else if !o.poll then
        { acc1 with promise := resolveOnce acc1.promise r }
      else
        { acc1 with promise := resolveOnce acc1.promise r,
                    errCalls := acc1.errCalls ++ [.wMaxPoll] }
    | .fetchErr =>
      let acc2 := { acc1 with errCalls := acc1.errCalls ++ [.wFetchErr] }
      if o.poll && decide (doneT < o.maxPollTime) then
        worldGo worldId o beh dur fuel (doneT + o.pollInterval) (k + 1) acc2
      else
        { acc2 with promise := rejectOnce acc2.promise }

/-- Prepend a first-attempt outcome to a fetch behaviour. -/
def consW (f : WFetch) (rest : Nat → WFetch) : Nat → WFetch
  | 0 => f
  | k + 1 => rest k

/-! ## Model loading subsystem: event-loop simulator

`loadModel` (source lines 257-302), `_startModelLoad` (lines 307-381),
`cancelPoll` (lines 388-393), `cancelAllPolls`/`clearCache` (lines 398-405,
743-746) form a timer-driven subsystem over the process-wide `_cache` and
`_activePolls` maps.  We embed it as a deterministic event-loop simulator:
a sorted queue of timed events (script calls from the caller, timer
expirations, fetch completions, GLB-load completions) is processed in time
order (FIFO among equal times, as in the host event loop); timers carry
the id under which `clearTimeout` can remove them.  THREE.js and the
GLTFLoader are assumed available (every claim's scenario has them), and the
fetch/load collaborators are an oracle `Plan` giving each dispatched
fetch/load its outcome and duration. -/

/-- Caller-supplied options of `loadModel` before default resolution
(`none` = property absent). -/
structure MOpts where
  poll : Option Bool
  pollInterval : Option Nat
  maxPollTime : Option Nat
deriving DecidableEq, Repr

/-- JavaScript `x || d` defaulting for the numeric options (0 is falsy). -/
def orDefault (x : Option Nat) (d : Nat) : Nat :=
  match x with
  | none => d
  | some v => if v = 0 then d else v

/-- One resolution task: the closure state of a `_startModelLoad`
invocation. -/
structure MTask where
  modelId : String
  startTime : Nat
  poll : Bool
  pollInterval : Nat
  maxPollTime : Nat
  groupId : Nat
  placeholder : Option Nat
deriving DecidableEq, Repr

/-- Outcome of one model descriptor fetch. -/
inductive MFetch where
  | mErr : MFetch
  | mOk : ModelData → MFetch
deriving DecidableEq, Repr

/-- External calls a caller can script. -/
inductive SAction where
  | callLoadModel : String → MOpts → SAction
  | callCancelPoll : String → SAction
  | callClearCache : SAction
  | externRemovePlaceholder : Nat → SAction
deriving DecidableEq, Repr

/-- Events of the simulated host event loop. -/
inductive Event where
  | script : SAction → Event
  | timerFired : Nat → Event
  | fetchDone : Nat → MFetch → Event
  | loadDone : Nat → ModelData → Bool → Event
deriving DecidableEq, Repr

/-- A queued event: its fire time, its id (the `setTimeout` handle for
timers), and its payload. -/
structure QEvent where
  time : Nat
  eid : Nat
  ev : Event
deriving DecidableEq, Repr

/-- A child of a THREE.Group container: the placeholder box or a loaded
scene, identified by id. -/
inductive Child where
  | ph : Nat → Child
  | scene : Nat → Child
deriving DecidableEq, Repr

/-- Error callback invocations of model tasks. -/
inductive MErr where
  | fetchFailed : MErr
  | loadFailed : MErr
  | maxPollReached : String → MErr
deriving DecidableEq, Repr

/-- A `_cache` entry for a model key: the returned container and the
`loaded` flag. -/
structure CacheEntry where
  groupId : Nat
  loaded : Bool
deriving DecidableEq, Repr

/-- Association-list lookup (JavaScript object property read). -/
def lookupA {κ α : Type} [DecidableEq κ] : List (κ × α) → κ → Option α
  | [], _ => none
  | (k, v) :: rest, key => if k = key then some v else lookupA rest key

/-- Association-list update (JavaScript object property write). -/
def setA {κ α : Type} [DecidableEq κ] : List (κ × α) → κ → α → List (κ × α)
  | [], key, v => [(key, v)]
  | (k, w) :: rest, key, v =>
    if k = key then (key, v) :: rest else (k, w) :: setA rest key v

/-- Association-list key deletion (JavaScript `delete`). -/
def removeA {κ α : Type} [DecidableEq κ] : List (κ × α) → κ → List (κ × α)
  | [], _ => []
  | (k, w) :: rest, key => if k = key then rest else (k, w) :: removeA rest key

/-- Global state of the simulated subsystem, together with the observation
logs (dispatched fetches and loads, swap and error callback invocations,
`loadModel` return values). -/
structure SimState where
  now : Nat
  nextId : Nat
  queue : List QEvent
  cache : List (String × CacheEntry)
  activePolls : List (String × Nat)
  tasks : List (Nat × MTask)
  groups : List (Nat × List Child)
  disposed : List Nat
  fetchLog : List (Nat × String)
  loadLog : List (Nat × String)
  swapLog : List (Nat × String × Nat × ModelData)
  errLog : List (Nat × MErr)
  retLog : List (Option Nat)
  crashed : Bool
deriving DecidableEq, Repr

/-- Behaviour of the external collaborators: outcome and duration of the
k-th dispatched descriptor fetch and of the k-th dispatched GLB load. -/
structure Plan where
  fetchPlan : Nat → MFetch
  fetchDur : Nat → Nat
  loadPlan : Nat → Bool
  loadDur : Nat → Nat

/-- Insert an event keeping the queue sorted by time, after all events of
the same time (FIFO among ties, as the host event loop behaves). -/
def insertEv (e : QEvent) : List QEvent → List QEvent
  | [] => [e]
  | x :: xs => if x.time ≤ e.time then x :: insertEv e xs else e :: x :: xs

/-- Model of `clearTimeout`: drop the pending event with the given handle. -/
def removeEv (eid : Nat) (q : List QEvent) : List QEvent :=
  q.filter (fun x => x.eid != eid)

/-- Body of `attempt()` up to the promise callbacks (source lines 311-312):
invoke `fetchModel`; the promise callback is delivered later as a
`fetchDone` event at the completion time. -/
def dispatchFetch (pl : Plan) (s : SimState) (taskId : Nat) (modelId : String) : SimState :=
  let k := s.fetchLog.length
  { s with
    fetchLog := s.fetchLog ++ [(s.now, modelId)],
    queue := insertEv ⟨s.now + pl.fetchDur k, s.nextId, .fetchDone taskId (pl.fetchPlan k)⟩
      s.queue,
    nextId := s.nextId + 1 }

/-- Translation of `_activePolls[modelId] = setTimeout(attempt, pollInterval)` (source
lines 357, 362, 375): register a timer and store its handle in the poll
registry, overwriting (without cancelling) any previous handle. -/
def scheduleRetry (s : SimState) (taskId : Nat) (t : MTask) : SimState :=
  { s with
    queue := insertEv ⟨s.now + t.pollInterval, s.nextId, .timerFired taskId⟩ s.queue,
    activePolls := setA s.activePolls t.modelId s.nextId,
    nextId := s.nextId + 1 }

/-- Translation of `if (poll && (Date.now() - startTime) < maxPollTime)` reschedule, else
do nothing — the retry policy applied after a fetch error (source lines
374-376) and after a load error (lines 356-358). -/
def retryIfAllowed (s : SimState) (taskId : Nat) (t : MTask) : SimState :=
  if t.poll && decide (s.now - t.startTime < t.maxPollTime) then
    scheduleRetry s taskId t
  else s

/-- Translation of `if (_activePolls[id]) { clearTimeout(_activePolls[id]); delete
_activePolls[id]; }` — used by `cancelPoll` (source lines 388-393) and by
the success path (lines 345-348). -/
def clearPollEntry (s : SimState) (modelId : String) : SimState :=
  match lookupA s.activePolls modelId with
  | none => s
  | some tid =>
    { s with queue := removeEv tid s.queue, activePolls := removeA s.activePolls modelId }

/-- The cache-miss path of `loadModel` (source lines 278-301): create the
container group with a placeholder box, store a fresh non-loaded cache
entry under `model:` + id, record the returned group, and start the task
with an immediate first fetch attempt. -/
def startModelLoad (pl : Plan) (s : SimState) (modelId : String) (o : MOpts) : SimState :=
  let key := "model:" ++ modelId
  let gid := s.nextId
  let pid := s.nextId + 1
  let taskId := s.nextId + 2
  let t : MTask :=
    { modelId := modelId, startTime := s.now,
      poll := o.poll.getD true,
      pollInterval := orDefault o.pollInterval 5000,
      maxPollTime := orDefault o.maxPollTime 300000,
      groupId := gid, placeholder := some pid }
  let s1 := { s with
    nextId := s.nextId + 3,
    groups := s.groups ++ [(gid, [Child.ph pid])],
    cache := setA s.cache key ⟨gid, false⟩,
    tasks := s.tasks ++ [(taskId, t)],
    retLog := s.retLog ++ [some gid] }
  dispatchFetch pl s1 taskId modelId

/-- Translation of `loadModel` (source lines 257-302): return the cached group when the
real mesh was already loaded, otherwise start a fresh resolution task
(overwriting any existing non-loaded cache entry). -/
def handleLoadModel (pl : Plan) (s : SimState) (modelId : String) (o : MOpts) : SimState :=
  let key := "model:" ++ modelId
  match lookupA s.cache key with
  | some e =>
    if e.loaded then { s with retLog := s.retLog ++ [some e.groupId] }
    else startModelLoad pl s modelId o
  | none => startModelLoad pl s modelId o

/-- The fetch-promise callbacks of `attempt()` (source lines 312-377): on
error, report and retry if allowed; on success, resolve the mesh URL — if
present dispatch the GLB load (GLTFLoader assumed available), if absent
reschedule under the poll policy, give up silently when polling is
disabled, or give up with the max-poll-time error. -/
def handleFetchDone (pl : Plan) (s : SimState) (taskId : Nat) (res : MFetch) : SimState :=
  match lookupA s.tasks taskId with
  | none => s
  | some t =>
    match res with
    | .mErr =>
      retryIfAllowed { s with errLog := s.errLog ++ [(s.now, .fetchFailed)] } taskId t
    | .mOk d =>
      match resolveMeshUrl d with
      | some _ =>
        let k := s.loadLog.length
        { s with
          loadLog := s.loadLog ++ [(s.now, t.modelId)],
          queue := insertEv ⟨s.now + pl.loadDur k, s.nextId,
            .loadDone taskId d (pl.loadPlan k)⟩ s.queue,
          nextId := s.nextId + 1 }
      | none =>
        if t.poll && decide (s.now - t.startTime < t.maxPollTime) then
          scheduleRetry s taskId t
        else if !t.poll then s
        else { s with errLog := s.errLog ++ [(s.now, .maxPollReached t.modelId)] }

/-- The success callback of `loadGLB` (source lines 327-351): remove the
placeholder from the group and dispose its geometry and material — only if
it is still attached to the group — attach the scene in its place, mark the
cache entry loaded (a missing entry, possible after `clearCache`, would
make the source throw: recorded as `crashed`), clear any poll-registry
entry for the key, and invoke `onSwap`.  Nothing is scheduled. -/
def swapInSuccess (s : SimState) (t : MTask) (d : ModelData) : SimState :=
  let key := "model:" ++ t.modelId
  let children := (lookupA s.groups t.groupId).getD []
  let sid := s.nextId
  let stillAttached :=
    match t.placeholder with
    | some p => children.contains (Child.ph p)
    | none => false
  let children1 :=
    match t.placeholder with
    | some p => if children.contains (Child.ph p) then children.erase (Child.ph p)
                else children
    | none => children
  let s1 := { s with
    nextId := s.nextId + 1,
    groups := setA s.groups t.groupId (children1 ++ [Child.scene sid]),
    disposed :=
      match t.placeholder with
      | some p => if stillAttached then s.disposed ++ [p] else s.disposed
      | none => s.disposed }
  let s2 :=
    match lookupA s1.cache key with
    | some e => { s1 with cache := setA s1.cache key { e with loaded := true } }
    | none => { s1 with crashed := true }
  let s3 := clearPollEntry s2 t.modelId
  { s3 with swapLog := s3.swapLog ++ [(s3.now, t.modelId, sid, d)] }

/-- The `loadGLB` promise callbacks (source lines 326-359): on success, the
swap of `swapInSuccess`; on failure, report `loadFailed` and retry if the
poll policy allows. -/
def handleLoadDone (s : SimState) (taskId : Nat) (d : ModelData) (ok : Bool) : SimState :=
  match lookupA s.tasks taskId with
  | none => s
  | some t =>
    if ok then
      swapInSuccess s t d
    else
      retryIfAllowed { s with errLog := s.errLog ++ [(s.now, .loadFailed)] } taskId t

/-- Translation of `clearCache` (source lines 743-746): `cancelAllPolls` clears every
registered timer, then both maps are reset. -/
def handleClearCache (s : SimState) : SimState :=
  { s with
    queue := s.queue.filter (fun x => !(s.activePolls.any (fun p => p.2 == x.eid))),
    activePolls := [],
    cache := [] }

/-- Tests that a group child is not a placeholder. -/
def notPlaceholder (c : Child) : Bool :=
  match c with
  | Child.ph _ => false
  | _ => true

/-- External removal of the placeholder from its container by the caller
(the `placeholder.parent === group` guard of the source exists because this
can happen at any time). -/
def handleRemovePlaceholder (s : SimState) (gid : Nat) : SimState :=
  match lookupA s.groups gid with
  | none => s
  | some children =>
    { s with groups := setA s.groups gid (children.filter notPlaceholder) }

/-- Process one event of the simulated event loop. -/
def handle (pl : Plan) (s : SimState) (e : QEvent) : SimState :=
  match e.ev with
  | .script (.callLoadModel id o) => handleLoadModel pl s id o
  | .script (.callCancelPoll id) => clearPollEntry s id
  | .script .callClearCache => handleClearCache s
  | .script (.externRemovePlaceholder gid) => handleRemovePlaceholder s gid
  | .timerFired taskId =>
    match lookupA s.tasks taskId with
    | none => s
    | some t => dispatchFetch pl s taskId t.modelId
  | .fetchDone taskId res => handleFetchDone pl s taskId res
  | .loadDone taskId d ok => handleLoadDone s taskId d ok

/-- Run the event loop: repeatedly pop the earliest pending event, advance
virtual time to it and process it. -/
def runSim (pl : Plan) : Nat → SimState → SimState
  | 0, s => s
  | fuel + 1, s =>
    match s.queue with
    | [] => s
    | e :: rest => runSim pl fuel (handle pl { s with queue := rest, now := e.time } e)

/-- Initial state for a scripted scenario: the caller's timed external
calls, nothing else. -/
def initState (script : List (Nat × SAction)) : SimState :=
  let q := script.foldl
    (fun (acc : List QEvent × Nat) p => (insertEv ⟨p.1, acc.2, .script p.2⟩ acc.1, acc.2 + 1))
    ([], 0)
  { now := 0, nextId := q.2, queue := q.1, cache := [], activePolls := [], tasks := [],
    groups := [], disposed := [], fetchLog := [], loadLog := [], swapLog := [],
    errLog := [], retLog := [], crashed := false }

/-- Number of descriptor fetches currently in flight (dispatched, promise
callback not yet delivered). -/
def fetchesInFlight (s : SimState) : Nat :=
  s.queue.countP (fun x => match x.ev with | .fetchDone _ _ => true | _ => false)

/-! ### Concrete scenarios -/

/-- A descriptor that never contains any mesh URL. -/
def noMeshData : ModelData := ⟨none, none, none⟩

/-- A descriptor whose textured mesh URL is present. -/
def meshData : ModelData := ⟨some ⟨some "u.glb"⟩, none, none⟩

/-- Fetch always succeeds with a mesh-less descriptor, instantaneously. -/
def planNoMeshFast : Plan := ⟨fun _ => .mOk noMeshData, fun _ => 0, fun _ => true, fun _ => 0⟩

/-- Fetch always succeeds with a mesh-less descriptor after 10ms. -/
def planNoMeshSlow : Plan := ⟨fun _ => .mOk noMeshData, fun _ => 10, fun _ => true, fun _ => 0⟩

/-- Fetch always succeeds with a mesh-less descriptor after 2000ms. -/
def planNoMeshVerySlow : Plan :=
  ⟨fun _ => .mOk noMeshData, fun _ => 2000, fun _ => true, fun _ => 0⟩

/-- Fetch succeeds immediately with a mesh URL; the GLB load succeeds after
100ms. -/
def planMeshSlowLoad : Plan := ⟨fun _ => .mOk meshData, fun _ => 0, fun _ => true, fun _ => 100⟩

/-- C2 scenario: one loadModel call, polling enabled, interval 5000ms,
ceiling 12000ms, descriptor never ready. -/
def simPollCeiling : SimState :=
  runSim planNoMeshFast 20
    (initState [(0, .callLoadModel "m" ⟨some true, some 5000, some 12000⟩)])

/-- C1 scenario: two loadModel calls for the same id at t=0 and t=1, while
the first fetch (taking 10ms) is still in flight. -/
def simTwoCalls : SimState :=
  runSim planNoMeshSlow 2
    (initState [(0, .callLoadModel "m" ⟨none, none, none⟩),
                (1, .callLoadModel "m" ⟨none, none, none⟩)])

/-- C3 scenario: one loadModel call (interval 5000ms, ceiling 12000ms,
fetches take 2000ms), and cancelPoll at t=1000 while the first fetch is in
flight. -/
def simCancelInFlight : SimState :=
  runSim planNoMeshVerySlow 20
    (initState [(0, .callLoadModel "m" ⟨some true, some 5000, some 12000⟩),
                (1000, .callCancelPoll "m")])

/-- C8 scenario: one loadModel call whose GLB load completes at t=100,
with the caller externally removing the placeholder from the group (id 2)
at t=50. -/
def simExternalRemoval : SimState :=
  runSim planMeshSlowLoad 10
    (initState [(0, .callLoadModel "m" ⟨none, none, none⟩),
                (50, .externRemovePlaceholder 2)])

/-! ### Structural facts about the queue and the association lists -/

/-- The task a queued event belongs to (script calls belong to none). -/
def evTask : Event → Option Nat
  | .timerFired taskId => some taskId
  | .fetchDone taskId _ => some taskId
  | .loadDone taskId _ _ => some taskId
  | .script _ => none

/-- Number of pending events (scheduled timer, in-flight fetch or load) of
one task. -/
def pendingFor (taskId : Nat) (q : List QEvent) : Nat :=
  q.countP (fun x => evTask x.ev == some taskId)

/-- A queued event's task reference (if any) is below the id counter `n`. -/
def evBelowB (n : Nat) (x : QEvent) : Bool :=
  match evTask x.ev with
  | some taskId => taskId < n
  | none => true

/-- All registered task ids are below the id counter. -/
def tasksBelow (s : SimState) : Prop :=
  ∀ p ∈ s.tasks, p.1 < s.nextId

/-- The queue contains no pending clearCache call. -/
def noClearCache (q : List QEvent) : Prop :=
  ∀ x ∈ q, x.ev ≠ .script .callClearCache

/-! ### The per-task sequencing invariant (C1) -/

/-- The sequencing invariant: every task reference in the queue is below
the id counter, and every task has at most one pending event (scheduled
timer, in-flight fetch, or in-flight load). -/
def seqInv (s : SimState) : Prop :=
  (∀ x ∈ s.queue, evBelowB s.nextId x = true) ∧
  ∀ taskId, pendingFor taskId s.queue ≤ 1

/-! ### Key quiescence after cancellation (C3) -/

/-- The model key a task id belongs to. -/
def taskModel (s : SimState) (taskId : Nat) : Option String :=
  (lookupA s.tasks taskId).map (fun t => t.modelId)

/-- A queued event does not belong to model key `k`: it is neither a
loadModel call for `k` nor a timer/fetch/load event of one of `k`'s
tasks. -/
def evQuietB (s : SimState) (k : String) (x : QEvent) : Bool :=
  match x.ev with
  | .script (.callLoadModel id _) => id != k
  | .timerFired taskId => taskModel s taskId != some k
  | .fetchDone taskId _ => taskModel s taskId != some k
  | .loadDone taskId _ _ => taskModel s taskId != some k
  | _ => true

/-- Nothing pending in the queue belongs to model key `k`. -/
def keyQuiet (k : String) (s : SimState) : Prop :=
  ∀ x ∈ s.queue, evQuietB s k x = true

/-- Number of descriptor fetches dispatched so far for model key `k`. -/
def fetchesFor (k : String) (s : SimState) : Nat :=
  s.fetchLog.countP (fun p => p.2 == k)

/-- Well-formedness plus quiescence of key `k`. -/
def quietInv (k : String) (s : SimState) : Prop :=
  tasksBelow s ∧ (∀ x ∈ s.queue, evBelowB s.nextId x = true) ∧ keyQuiet k s

instance (s : SimState) : Decidable (tasksBelow s) := by
  unfold tasksBelow; infer_instance

instance (k : String) (s : SimState) : Decidable (keyQuiet k s) := by
  unfold keyQuiet; infer_instance

instance (k : String) (s : SimState) : Decidable (quietInv k s) := by
  unfold quietInv; infer_instance

/-- Clean-cancel scenario: one loadModel call (interval 5000ms, ceiling
12000ms, fetches take 2000ms) and cancelPoll at t=6000, when the first
attempt has already completed (t=2000) and only its retry timer (t=7000)
is pending; the cancel removes that timer, leaving the queue empty. -/
def simCancelClean : SimState :=
  runSim planNoMeshVerySlow 3
    (initState [(0, .callLoadModel "m" ⟨some true, some 5000, some 12000⟩),
                (6000, .callCancelPoll "m")])

/-! ### Permanence of loaded cache entries (C7) -/

instance (q : List QEvent) : Decidable (noClearCache q) := by
  unfold noClearCache; infer_instance

/-- Fully loaded scenario: one loadModel call whose fetch and GLB load both
succeed; afterwards the cache entry for the key is loaded and the queue is
empty. -/
def simLoadedOk : SimState :=
  runSim planMeshSlowLoad 10 (initState [(0, .callLoadModel "m" ⟨none, none, none⟩)])

/-- Pre-swap scenario: one loadModel call whose fetch succeeded with a mesh
URL; the GLB load is still in flight, the placeholder still attached. -/
def simPreSwap : SimState :=
  runSim planMeshSlowLoad 2 (initState [(0, .callLoadModel "m" ⟨none, none, none⟩)])

/-- The task created in the pre-swap scenario. -/
def preSwapTask : MTask := ⟨"m", 0, true, 5000, 300000, 1, some 2⟩

/-! ## Theorems -/

/-! ## C4 — mesh URL resolution priority -/

/-- C4: `resolveMeshUrl` returns the first present (truthy) URL in the fixed
priority order texturedMesh, optimizedMesh, mesh; an absent sub-record and a
sub-record without a url field are skipped identically; it returns null when
none is present.  The descriptor `{optimizedMesh:{url:"a.glb"},
mesh:{url:"b.glb"}}` resolves to `"a.glb"`, and whenever the textured
(resp. optimized) rank carries a present URL it wins regardless of what the
lower ranks contain. -/
theorem resolveMeshUrl_priority :
    resolveMeshUrl ⟨none, some ⟨some "a.glb"⟩, some ⟨some "b.glb"⟩⟩ = some "a.glb" ∧
    (∀ o me, resolveMeshUrl ⟨none, o, me⟩ = resolveMeshUrl ⟨some ⟨none⟩, o, me⟩) ∧
    (∀ t me, resolveMeshUrl ⟨t, none, me⟩ = resolveMeshUrl ⟨t, some ⟨none⟩, me⟩) ∧
    (∀ m u, truthyUrl m.texturedMesh = some u → resolveMeshUrl m = some u) ∧
    (∀ m u, truthyUrl m.texturedMesh = none → truthyUrl m.optimizedMesh = some u →
      resolveMeshUrl m = some u) ∧
    (∀ m, truthyUrl m.texturedMesh = none → truthyUrl m.optimizedMesh = none →
      resolveMeshUrl m = truthyUrl m.mesh) ∧
    (∀ m, truthyUrl m.texturedMesh = none → truthyUrl m.optimizedMesh = none →
      truthyUrl m.mesh = none → resolveMeshUrl m = none) := by
  refine ⟨by decide, fun o me => rfl, fun t me => ?_, ?_, ?_, ?_, ?_⟩
  · cases t <;> rfl
  · intro m u h; simp [resolveMeshUrl, h]
  · intro m u h1 h2; simp [resolveMeshUrl, h1, h2]
  · intro m h1 h2; simp [resolveMeshUrl, h1, h2]
  · intro m h1 h2 h3; simp [resolveMeshUrl, h1, h2, h3]

/-- Witness for C4: the hypotheses of the conditional conjuncts are
satisfiable; a descriptor with all three ranks present resolves to the
textured mesh URL. -/
theorem resolveMeshUrl_priority_witness :
    truthyUrl (some ⟨some "t.glb"⟩) = some "t.glb" ∧
    resolveMeshUrl ⟨some ⟨some "t.glb"⟩, some ⟨some "o.glb"⟩, some ⟨some "m.glb"⟩⟩ =
      some "t.glb" :=
  ⟨by decide,
   resolveMeshUrl_priority.2.2.2.1
     ⟨some ⟨some "t.glb"⟩, some ⟨some "o.glb"⟩, some ⟨some "m.glb"⟩⟩ "t.glb" (by decide)⟩

/-! ## C5 — splat URL resolution priority and all-tiers tuple -/

/-- C5: `resolveSplatUrl` returns the first present URL in priority order
highRes, mediumRes, lowRes (null when none present), and
`resolveAllSplatUrls` returns the `{lowRes, mediumRes, highRes}` tuple with
each slot independently null when absent: in fact the best pick always
equals the first present slot of the all-tiers tuple.  The descriptor
`{splatFiles:{lowRes:{url:"x"},highRes:{url:"z"}}}` resolves to `"z"` with
all-tiers result `{lowRes:"x", mediumRes:null, highRes:"z"}`. -/
theorem resolveSplatUrl_priority :
    (resolveSplatUrl
        ⟨some ⟨some ⟨some "x"⟩, none, some ⟨some "z"⟩⟩,
         none, none, none, none, none, none, none⟩ = some "z") ∧
    (resolveAllSplatUrls
        ⟨some ⟨some ⟨some "x"⟩, none, some ⟨some "z"⟩⟩,
         none, none, none, none, none, none, none⟩ =
      ⟨some "x", none, some "z"⟩) ∧
    (∀ w, resolveSplatUrl w =
      firstSome (resolveAllSplatUrls w).highRes
        (firstSome (resolveAllSplatUrls w).mediumRes (resolveAllSplatUrls w).lowRes)) := by
  refine ⟨by decide, by decide, fun w => ?_⟩
  cases h : w.splatFiles with
  | none => simp [resolveSplatUrl, resolveAllSplatUrls, h, firstSome, truthyUrl]
  | some files =>
    simp only [resolveSplatUrl, resolveAllSplatUrls, h, Option.getD_some]
    cases truthyUrl files.highRes <;> cases truthyUrl files.mediumRes <;>
      simp [firstSome]

/-! ## C10 — falsy url fields are treated as absent -/

/-- C10: a sub-record whose url field is the empty string (the only falsy
string) is treated by every resolver exactly as an absent sub-record:
best-pick resolution skips to the next rank at every rank, and the
all-tiers result maps that slot to null. -/
theorem resolvers_skip_falsy_url :
    (∀ o me, resolveMeshUrl ⟨some ⟨some ""⟩, o, me⟩ = resolveMeshUrl ⟨none, o, me⟩) ∧
    (∀ t me, resolveMeshUrl ⟨t, some ⟨some ""⟩, me⟩ = resolveMeshUrl ⟨t, none, me⟩) ∧
    (∀ t o, resolveMeshUrl ⟨t, o, some ⟨some ""⟩⟩ = resolveMeshUrl ⟨t, o, none⟩) ∧
    (∀ (w : WorldData) lo mid,
      resolveSplatUrl { w with splatFiles := some ⟨lo, mid, some ⟨some ""⟩⟩ } =
      resolveSplatUrl { w with splatFiles := some ⟨lo, mid, none⟩ }) ∧
    (∀ (w : WorldData) lo hi,
      resolveSplatUrl { w with splatFiles := some ⟨lo, some ⟨some ""⟩, hi⟩ } =
      resolveSplatUrl { w with splatFiles := some ⟨lo, none, hi⟩ }) ∧
    (∀ (w : WorldData) mid hi,
      resolveSplatUrl { w with splatFiles := some ⟨some ⟨some ""⟩, mid, hi⟩ } =
      resolveSplatUrl { w with splatFiles := some ⟨none, mid, hi⟩ }) ∧
    (∀ (w : WorldData) mid hi,
      (resolveAllSplatUrls { w with splatFiles := some ⟨some ⟨some ""⟩, mid, hi⟩ }).lowRes =
        none) ∧
    (∀ (w : WorldData) lo hi,
      (resolveAllSplatUrls { w with splatFiles := some ⟨lo, some ⟨some ""⟩, hi⟩ }).mediumRes =
        none) ∧
    (∀ (w : WorldData) lo mid,
      (resolveAllSplatUrls { w with splatFiles := some ⟨lo, mid, some ⟨some ""⟩⟩ }).highRes =
        none) := by
  refine ⟨fun o me => rfl, fun t me => ?_, fun t o => ?_, fun w lo mid => rfl,
    fun w lo hi => ?_, fun w mid hi => ?_, fun w mid hi => rfl, fun w lo hi => rfl,
    fun w lo mid => rfl⟩
  · cases t <;> rfl
  · cases t with
    | none => cases o <;> rfl
    | some r => cases o <;> rfl
  · rfl
  · rfl

@[simp]
theorem exceptOk_bind {α β : Type} (a : α) (f : α → Except String β) :
    (Except.ok a : Except String α) >>= f = f a := rfl

@[simp]
theorem exceptPure_eq_ok {α : Type} (a : α) :
    (pure a : Except String α) = Except.ok a := rfl

@[simp]
theorem exceptOk_map {α β : Type} (a : α) (f : α → β) :
    f <$> (Except.ok a : Except String α) = Except.ok (f a) := rfl

theorem getField_ok_of_accessOk (v : JsVal) (f : String) (h : accessOk v = true) :
    ∃ u, getField v f = .ok u := by
  cases v with
  | undef => simp [accessOk] at h
  | nul => simp [accessOk] at h
  | str s => exact ⟨.undef, rfl⟩
  | obj fields => exact ⟨_, rfl⟩

theorem accessOk_of_jsTruthy (v : JsVal) (h : jsTruthy v = true) : accessOk v = true := by
  cases v <;> simp_all [jsTruthy, accessOk]

theorem pickUrl_ok (x : JsVal) : ∃ o, pickUrl x = .ok o := by
  by_cases h : jsTruthy x = true
  · obtain ⟨u, hu⟩ := getField_ok_of_accessOk x "url" (accessOk_of_jsTruthy x h)
    by_cases h2 : jsTruthy u = true
    · exact ⟨some u, by simp [pickUrl, h, hu, h2]⟩
    · exact ⟨none, by simp [pickUrl, h, hu, h2]⟩
  · exact ⟨none, by simp [pickUrl, h]⟩

theorem isOkE_of_eq_ok {e : Except String JsVal} {v : JsVal} (h : e = .ok v) :
    isOkE e = true := by simp [h, isOkE]

theorem resolveMeshUrlJs_ok (m : JsVal) (h : accessOk m = true) :
    ∃ g, resolveMeshUrlJs m = .ok g := by
  obtain ⟨t, ht⟩ := getField_ok_of_accessOk m "texturedMesh" h
  obtain ⟨pt, hpt⟩ := pickUrl_ok t
  obtain ⟨o, ho⟩ := getField_ok_of_accessOk m "optimizedMesh" h
  obtain ⟨po, hpo⟩ := pickUrl_ok o
  obtain ⟨me, hme⟩ := getField_ok_of_accessOk m "mesh" h
  obtain ⟨pm, hpm⟩ := pickUrl_ok me
  cases pt with
  | some u => exact ⟨u, by simp [resolveMeshUrlJs, ht, hpt]⟩
  | none =>
    cases po with
    | some u => exact ⟨u, by simp [resolveMeshUrlJs, ht, hpt, ho, hpo]⟩
    | none =>
      cases pm with
      | some u => exact ⟨u, by simp [resolveMeshUrlJs, ht, hpt, ho, hpo, hme, hpm]⟩
      | none => exact ⟨.nul, by simp [resolveMeshUrlJs, ht, hpt, ho, hpo, hme, hpm]⟩

theorem resolveAllFormatsJs_ok (m : JsVal) (h : accessOk m = true) :
    ∃ g, resolveAllFormatsJs m = .ok g := by
  obtain ⟨glb, hglb⟩ := resolveMeshUrlJs_ok m h
  obtain ⟨o, ho⟩ := getField_ok_of_accessOk m "obj" h
  obtain ⟨f, hf⟩ := getField_ok_of_accessOk m "fbx" h
  by_cases hto : jsTruthy o = true <;> by_cases htf : jsTruthy f = true
  · obtain ⟨go, hgo⟩ := resolveMeshUrlJs_ok o (accessOk_of_jsTruthy o hto)
    obtain ⟨gf, hgf⟩ := resolveMeshUrlJs_ok f (accessOk_of_jsTruthy f htf)
    exact ⟨.obj [("glb", glb), ("obj", go), ("fbx", gf)],
      by simp [resolveAllFormatsJs, hglb, ho, hf, hto, htf, hgo, hgf]⟩
  · obtain ⟨go, hgo⟩ := resolveMeshUrlJs_ok o (accessOk_of_jsTruthy o hto)
    exact ⟨.obj [("glb", glb), ("obj", go), ("fbx", .nul)],
      by simp [resolveAllFormatsJs, hglb, ho, hf, hto, htf, hgo]⟩
  · obtain ⟨gf, hgf⟩ := resolveMeshUrlJs_ok f (accessOk_of_jsTruthy f htf)
    exact ⟨.obj [("glb", glb), ("obj", .nul), ("fbx", gf)],
      by simp [resolveAllFormatsJs, hglb, ho, hf, hto, htf, hgf]⟩
  · exact ⟨.obj [("glb", glb), ("obj", .nul), ("fbx", .nul)],
      by simp [resolveAllFormatsJs, hglb, ho, hf, hto, htf]⟩

theorem resolveSplatUrlJs_ok (w : JsVal) (h : accessOk w = true) :
    ∃ g, resolveSplatUrlJs w = .ok g := by
  obtain ⟨sf, hsf⟩ := getField_ok_of_accessOk w "splatFiles" h
  by_cases hts : jsTruthy sf = true
  · have hacc := accessOk_of_jsTruthy sf hts
    obtain ⟨hi, hhi⟩ := getField_ok_of_accessOk sf "highRes" hacc
    obtain ⟨phi, hphi⟩ := pickUrl_ok hi
    obtain ⟨mid, hmid⟩ := getField_ok_of_accessOk sf "mediumRes" hacc
    obtain ⟨pmid, hpmid⟩ := pickUrl_ok mid
    obtain ⟨lo, hlo⟩ := getField_ok_of_accessOk sf "lowRes" hacc
    obtain ⟨plo, hplo⟩ := pickUrl_ok lo
    cases phi with
    | some u => exact ⟨u, by simp [resolveSplatUrlJs, hsf, hts, hhi, hphi]⟩
    | none =>
      cases pmid with
      | some u => exact ⟨u, by simp [resolveSplatUrlJs, hsf, hts, hhi, hphi, hmid, hpmid]⟩
      | none =>
        cases plo with
        | some u =>
          exact ⟨u, by simp [resolveSplatUrlJs, hsf, hts, hhi, hphi, hmid, hpmid, hlo, hplo]⟩
        | none =>
          exact ⟨.nul,
            by simp [resolveSplatUrlJs, hsf, hts, hhi, hphi, hmid, hpmid, hlo, hplo]⟩
  · exact ⟨.nul, by simp [resolveSplatUrlJs, hsf, hts]⟩

theorem slotUrl_ok (t : JsVal) : ∃ r, slotUrl t = .ok r := by
  obtain ⟨p, hp⟩ := pickUrl_ok t
  cases p with
  | none => exact ⟨.nul, by simp [slotUrl, hp]⟩
  | some u => exact ⟨u, by simp [slotUrl, hp]⟩

theorem resolveAllSplatUrlsJs_ok (w : JsVal) (h : accessOk w = true) :
    ∃ g, resolveAllSplatUrlsJs w = .ok g := by
  obtain ⟨sf, hsf⟩ := getField_ok_of_accessOk w "splatFiles" h
  have hfiles : accessOk (if jsTruthy sf then sf else JsVal.obj []) = true := by
    by_cases hts : jsTruthy sf = true
    · simpa [hts] using accessOk_of_jsTruthy sf hts
    · simp [hts, accessOk]
  obtain ⟨lo, hlo⟩ := getField_ok_of_accessOk _ "lowRes" hfiles
  obtain ⟨slo, hslo⟩ := slotUrl_ok lo
  obtain ⟨mid, hmid⟩ := getField_ok_of_accessOk _ "mediumRes" hfiles
  obtain ⟨smid, hsmid⟩ := slotUrl_ok mid
  obtain ⟨hi, hhi⟩ := getField_ok_of_accessOk _ "highRes" hfiles
  obtain ⟨shi, hshi⟩ := slotUrl_ok hi
  exact ⟨.obj [("lowRes", slo), ("mediumRes", smid), ("highRes", shi)],
    by simp [resolveAllSplatUrlsJs, hsf, hlo, hslo, hmid, hsmid, hhi, hshi]⟩

/-! ## C9 — the URL resolvers are total -/

/-- C9: the URL resolver functions are total over descriptors: for every
object value, with any subset of fields present and arbitrary (possibly
absent, null, or non-object) field contents, every nested field access is
guarded, so none of `resolveMeshUrl`, `resolveAllFormats`,
`resolveSplatUrl`, `resolveAllSplatUrls` ever raises a TypeError — each
returns an ok result. -/
theorem resolvers_total (v : JsVal) (h : isObjVal v = true) :
    isOkE (resolveMeshUrlJs v) = true ∧
    isOkE (resolveAllFormatsJs v) = true ∧
    isOkE (resolveSplatUrlJs v) = true ∧
    isOkE (resolveAllSplatUrlsJs v) = true := by
  have hacc : accessOk v = true := by cases v <;> simp_all [isObjVal, accessOk]
  exact ⟨isOkE_of_eq_ok (resolveMeshUrlJs_ok v hacc).choose_spec,
    isOkE_of_eq_ok (resolveAllFormatsJs_ok v hacc).choose_spec,
    isOkE_of_eq_ok (resolveSplatUrlJs_ok v hacc).choose_spec,
    isOkE_of_eq_ok (resolveAllSplatUrlsJs_ok v hacc).choose_spec⟩

/-- Witness for C9: the empty descriptor is an object and all four
resolvers succeed on it. -/
theorem resolvers_total_witness :
    isObjVal (.obj []) = true ∧ isOkE (resolveMeshUrlJs (.obj [])) = true :=
  ⟨rfl, (resolvers_total (.obj []) rfl).1⟩

/-- Once the promise is resolved, no later attempt changes it (the
`resolved` guard of the source). -/
theorem worldGo_keeps_resolved (worldId : String) (o : WOpts) (beh : Nat → WFetch)
    (dur : Nat → Nat) (r : WorldResult) :
    ∀ fuel fireT k acc, acc.promise = .resolvedW r →
      (worldGo worldId o beh dur fuel fireT k acc).promise = .resolvedW r := by
  intro fuel
  induction fuel with
  | zero => intro fireT k acc h; simpa [worldGo] using h
  | succ n ih =>
    intro fireT k acc h
    simp only [worldGo]
    cases hb : beh k with
    | fetchOk w =>
      by_cases hr : worldIsReady (buildWorldResult worldId w) = true
      · simp [hr, resolveOnce, h]
      · by_cases hp : (o.poll && decide (fireT + dur k < o.maxPollTime)) = true
        · simp only [hr, hp, Bool.false_eq_true, if_false, if_true]
          exact ih _ _ _ (by simp [resolveOnce, h])
        · by_cases hq : o.poll = true
          · have hlt : ¬ (fireT + dur k < o.maxPollTime) := by
              intro hlt; exact hp (by simp [hq, hlt])
            simp [hr, hp, hq, hlt, resolveOnce, h]
          · simp [hr, hp, hq, resolveOnce, h]
    | fetchErr =>
      by_cases hp : (o.poll && decide (fireT + dur k < o.maxPollTime)) = true
      · simp only [hp, if_true]
        exact ih _ _ _ (by simp [h])
      · simp [hp, rejectOnce, h]

/-! ## C6 — promise semantics of loadWorld -/

/-- Counterexample to C6: with polling enabled (poll = true, interval
5000ms, ceiling 12000ms) and every descriptor fetch failing, the promise
returned by `loadWorld` is rejected (after attempts at t=0, 5000, 10000,
15000), even though polling is not disabled and the rejecting attempt is
not the first one — contradicting the claim that failure propagates to the
caller only when the very first fetch errors with polling disabled. -/
theorem loadWorld_rejects_with_polling_enabled :
    (worldGo "w" ⟨true, 5000, 12000⟩ (fun _ => .fetchErr) (fun _ => 0)
        10 0 0 worldInit).promise = .rejectedW ∧
    (worldGo "w" ⟨true, 5000, 12000⟩ (fun _ => .fetchErr) (fun _ => 0)
        10 0 0 worldInit).fetchTimes = [0, 5000, 10000, 15000] := by
  constructor <;> decide

/-- C6 as amended: (1) whenever the first fetch succeeds, the promise
resolves on that first attempt with the (possibly partial, best-effort)
result of that attempt — regardless of readiness, of later outcomes, and of
the polling configuration — and background polling never changes the
resolved value; (2) rejection requires a fetch error: if polling is
disabled and the first fetch errors, the promise rejects; (3) but rejection
is not limited to that single case — with polling enabled, a run whose
fetches all error until the ceiling also rejects. -/
theorem loadWorld_promise_semantics :
    (∀ (worldId : String) (o : WOpts) (w : WorldData) (rest : Nat → WFetch)
        (dur : Nat → Nat) (fuel : Nat),
      (worldGo worldId o (consW (.fetchOk w) rest) dur (fuel + 1) 0 0 worldInit).promise =
        .resolvedW (buildWorldResult worldId w)) ∧
    (∀ (worldId : String) (i m : Nat) (rest : Nat → WFetch) (dur : Nat → Nat)
        (fuel : Nat),
      (worldGo worldId ⟨false, i, m⟩ (consW .fetchErr rest) dur (fuel + 1) 0 0
          worldInit).promise = .rejectedW) ∧
    (worldGo "w" ⟨true, 5000, 12000⟩ (fun _ => .fetchErr) (fun _ => 0)
        10 0 0 worldInit).promise = .rejectedW := by
  refine ⟨?_, ?_, by decide⟩
  · intro worldId o w rest dur fuel
    simp only [worldGo, consW]
    by_cases hr : worldIsReady (buildWorldResult worldId w) = true
    · simp [hr, resolveOnce, worldInit]
    · by_cases hp : (o.poll && decide (0 + dur 0 < o.maxPollTime)) = true
      · simp only [hr, hp, Bool.false_eq_true, if_false, if_true]
        exact worldGo_keeps_resolved _ _ _ _ _ _ _ _ _ (by simp [resolveOnce, worldInit])
      · by_cases hq : o.poll = true
        · have hlt : ¬ (0 + dur 0 < o.maxPollTime) := by
            intro hlt; exact hp (by simp [hq]; omega)
          simp only [Nat.zero_add] at hlt
          simp [hr, hp, hq, hlt, resolveOnce, worldInit]
        · simp [hr, hp, hq, resolveOnce, worldInit]
  · intro worldId i m rest dur fuel
    simp [worldGo, consW, rejectOnce, worldInit]

/-! ## C2 — polling ceiling semantics -/

/-- Counterexample to C2: in the 12000ms-ceiling / 5000ms-interval
never-ready scenario the task makes 4 fetch attempts, not 3, and the
attempt at t=15000 fires rather than being skipped: the source compares the
elapsed time at an attempt's completion against the ceiling and does not
look ahead to the next fire time. -/
theorem model_poll_ceiling_four_attempts :
    simPollCeiling.fetchLog.length = 4 ∧ (15000, "m") ∈ simPollCeiling.fetchLog := by
  constructor <;> decide

/-- C2 as amended: in that scenario the task makes exactly 4 fetch attempts
firing at t=0, 5000, 10000 and 15000 — the attempt scheduled at the
completion of the t=10000 attempt still fires at t=15000, because the
ceiling is checked against the elapsed time when an attempt completes, not
against the next fire time — and after the final attempt the error callback
is invoked with the max-poll-time-reached (PollingExhausted) error and
nothing further is ever scheduled. -/
theorem model_poll_ceiling_trace :
    simPollCeiling.fetchLog = [(0, "m"), (5000, "m"), (10000, "m"), (15000, "m")] ∧
    simPollCeiling.errLog = [(15000, .maxPollReached "m")] ∧
    simPollCeiling.queue = [] := by
  refine ⟨by decide, by decide, by decide⟩

/-! ## C1 — concurrent requests for the same key -/

/-- Counterexample to C1: calling loadModel a second time with the same
model id before the first resolution completes dispatches a second fetch
immediately — at t=1 two fetch attempts for key "m" are in flight
simultaneously, and a second resolution task has been created. -/
theorem loadModel_double_call_two_fetches :
    fetchesInFlight simTwoCalls = 2 ∧
    simTwoCalls.fetchLog = [(0, "m"), (1, "m")] ∧
    simTwoCalls.tasks.length = 2 := by
  refine ⟨by decide, by decide, by decide⟩

/-! ## C3 — cancellation -/

/-- Counterexample to C3: cancelPoll at t=1000, while the first fetch
(dispatched at t=0, completing at t=2000) is still in flight, does not stop
the task: the stale fetch callback re-registers a timer without checking
poll-registry membership, and further fetch attempts fire at t=7000 and
t=14000 after the cancellation. -/
theorem cancelPoll_inflight_fetch_continues :
    (7000, "m") ∈ simCancelInFlight.fetchLog ∧
    (14000, "m") ∈ simCancelInFlight.fetchLog := by
  constructor <;> decide

/-! ## C8 — the placeholder swap -/

/-- Counterexample to C8: when the placeholder was externally removed
before the GLB load completed, the swap still completes (the scene is
attached, the cache entry is marked loaded, onSwap fires once) but the
placeholder's disposable resources are never released — disposal is inside
the still-attached guard, not unconditional as the claim states. -/
theorem swap_skips_disposal_when_detached :
    simExternalRemoval.swapLog = [(100, "m", 7, meshData)] ∧
    simExternalRemoval.disposed = [] ∧
    lookupA simExternalRemoval.cache "model:m" = some ⟨2, true⟩ ∧
    lookupA simExternalRemoval.groups 2 = some [Child.scene 7] := by
  refine ⟨by decide, by decide, by decide, by decide⟩

theorem mem_insertEv {x e : QEvent} :
    ∀ {q : List QEvent}, x ∈ insertEv e q → x = e ∨ x ∈ q := by
  intro q
  induction q with
  | nil => intro h; simpa [insertEv] using h
  | cons y ys ih =>
    intro h
    simp only [insertEv] at h
    split at h
    · rcases List.mem_cons.1 h with h1 | h2
      · exact Or.inr (List.mem_cons.2 (Or.inl h1))
      · rcases ih h2 with h3 | h4
        · exact Or.inl h3
        · exact Or.inr (List.mem_cons.2 (Or.inr h4))
    · rcases List.mem_cons.1 h with h1 | h2
      · exact Or.inl h1
      · exact Or.inr h2

theorem countP_insertEv (p : QEvent → Bool) (e : QEvent) :
    ∀ q : List QEvent, (insertEv e q).countP p = q.countP p + (if p e then 1 else 0) := by
  intro q
  induction q with
  | nil => simp [insertEv, List.countP_cons]
  | cons y ys ih =>
    simp only [insertEv]
    split
    · simp only [List.countP_cons, ih]; omega
    · simp only [List.countP_cons]

theorem removeEv_sublist (eid : Nat) (q : List QEvent) : (removeEv eid q).Sublist q :=
  List.filter_sublist q

theorem lookupA_setA_self {κ α : Type} [DecidableEq κ] :
    ∀ (l : List (κ × α)) (k : κ) (v : α), lookupA (setA l k v) k = some v := by
  intro l k v
  induction l with
  | nil => simp [setA, lookupA]
  | cons p rest ih =>
    obtain ⟨a, b⟩ := p
    by_cases h : a = k
    · simp [setA, h, lookupA]
    · simp [setA, h, lookupA, ih]

theorem lookupA_setA_ne {κ α : Type} [DecidableEq κ] :
    ∀ (l : List (κ × α)) (k k' : κ) (v : α), k ≠ k' →
      lookupA (setA l k v) k' = lookupA l k' := by
  intro l k k' v hne
  induction l with
  | nil => simp [setA, lookupA, hne]
  | cons p rest ih =>
    obtain ⟨a, b⟩ := p
    by_cases h : a = k
    · subst h
      simp [setA, lookupA, hne]
    · simp [setA, h, lookupA, ih]

theorem lookupA_append {κ α : Type} [DecidableEq κ] :
    ∀ (l₁ l₂ : List (κ × α)) (k : κ),
      lookupA (l₁ ++ l₂) k =
        (match lookupA l₁ k with | some v => some v | none => lookupA l₂ k) := by
  intro l₁ l₂ k
  induction l₁ with
  | nil => simp [lookupA]
  | cons p rest ih =>
    obtain ⟨a, b⟩ := p
    by_cases h : a = k
    · simp [lookupA, h]
    · simp [lookupA, h, ih]

theorem lookupA_eq_none_of_not_mem {κ α : Type} [DecidableEq κ] :
    ∀ (l : List (κ × α)) (k : κ), k ∉ l.map Prod.fst → lookupA l k = none := by
  intro l k h
  induction l with
  | nil => rfl
  | cons p rest ih =>
    obtain ⟨a, b⟩ := p
    simp only [List.map_cons, List.mem_cons] at h
    push_neg at h
    simp only [lookupA]
    rw [if_neg (fun hk => h.1 hk.symm)]
    exact ih h.2

theorem lookupA_removeA_self {κ α : Type} [DecidableEq κ] :
    ∀ (l : List (κ × α)) (k : κ), (l.map Prod.fst).Nodup →
      lookupA (removeA l k) k = none := by
  intro l k hnd
  induction l with
  | nil => rfl
  | cons p rest ih =>
    obtain ⟨a, b⟩ := p
    simp only [List.map_cons, List.nodup_cons] at hnd
    by_cases h : a = k
    · subst h
      simp only [removeA, if_pos rfl]
      exact lookupA_eq_none_of_not_mem rest a hnd.1
    · simp only [removeA, if_neg h, lookupA, if_neg h]
      exact ih hnd.2

theorem dispatchFetch_spec (pl : Plan) (s : SimState) (taskId : Nat) (mid : String) :
    (dispatchFetch pl s taskId mid).queue =
      insertEv ⟨s.now + pl.fetchDur s.fetchLog.length, s.nextId,
        .fetchDone taskId (pl.fetchPlan s.fetchLog.length)⟩ s.queue ∧
    (dispatchFetch pl s taskId mid).nextId = s.nextId + 1 ∧
    (dispatchFetch pl s taskId mid).tasks = s.tasks ∧
    (dispatchFetch pl s taskId mid).fetchLog = s.fetchLog ++ [(s.now, mid)] :=
  ⟨rfl, rfl, rfl, rfl⟩

theorem scheduleRetry_spec (s : SimState) (taskId : Nat) (t : MTask) :
    (scheduleRetry s taskId t).queue =
      insertEv ⟨s.now + t.pollInterval, s.nextId, .timerFired taskId⟩ s.queue ∧
    (scheduleRetry s taskId t).nextId = s.nextId + 1 ∧
    (scheduleRetry s taskId t).tasks = s.tasks ∧
    (scheduleRetry s taskId t).fetchLog = s.fetchLog :=
  ⟨rfl, rfl, rfl, rfl⟩

theorem startModelLoad_spec (pl : Plan) (s : SimState) (id : String) (o : MOpts) :
    (startModelLoad pl s id o).queue =
      insertEv ⟨s.now + pl.fetchDur s.fetchLog.length, s.nextId + 3,
        .fetchDone (s.nextId + 2) (pl.fetchPlan s.fetchLog.length)⟩ s.queue ∧
    (startModelLoad pl s id o).nextId = s.nextId + 4 ∧
    (∃ t, (startModelLoad pl s id o).tasks = s.tasks ++ [(s.nextId + 2, t)] ∧
      t.modelId = id) ∧
    (startModelLoad pl s id o).fetchLog = s.fetchLog ++ [(s.now, id)] :=
  ⟨rfl, rfl, ⟨_, rfl, rfl⟩, rfl⟩

theorem retryIfAllowed_spec (s : SimState) (taskId : Nat) (t : MTask) :
    s.nextId ≤ (retryIfAllowed s taskId t).nextId ∧
    ((retryIfAllowed s taskId t).queue = s.queue ∨
      (retryIfAllowed s taskId t).queue =
        insertEv ⟨s.now + t.pollInterval, s.nextId, .timerFired taskId⟩ s.queue) ∧
    (retryIfAllowed s taskId t).tasks = s.tasks ∧
    (retryIfAllowed s taskId t).fetchLog = s.fetchLog := by
  unfold retryIfAllowed scheduleRetry
  split
  · exact ⟨Nat.le_succ _, Or.inr rfl, rfl, rfl⟩
  · exact ⟨Nat.le_refl _, Or.inl rfl, rfl, rfl⟩

theorem clearPollEntry_spec (s : SimState) (k : String) :
    (clearPollEntry s k).queue.Sublist s.queue ∧
    (clearPollEntry s k).nextId = s.nextId ∧
    (clearPollEntry s k).tasks = s.tasks ∧
    (clearPollEntry s k).fetchLog = s.fetchLog ∧
    (clearPollEntry s k).cache = s.cache := by
  unfold clearPollEntry
  split
  · exact ⟨List.Sublist.refl _, rfl, rfl, rfl, rfl⟩
  · exact ⟨removeEv_sublist _ _, rfl, rfl, rfl, rfl⟩

theorem swapInSuccess_spec (s : SimState) (t : MTask) (d : ModelData) :
    (swapInSuccess s t d).nextId = s.nextId + 1 ∧
    (swapInSuccess s t d).queue.Sublist s.queue ∧
    (swapInSuccess s t d).tasks = s.tasks ∧
    (swapInSuccess s t d).fetchLog = s.fetchLog := by
  unfold swapInSuccess clearPollEntry
  cases hc : lookupA s.cache ("model:" ++ t.modelId) with
  | some en =>
    simp only [hc]
    cases hp : lookupA s.activePolls t.modelId with
    | none => simp [hp]
    | some tid => simp [hp, removeEv_sublist]
  | none =>
    simp only [hc]
    cases hp : lookupA s.activePolls t.modelId with
    | none => simp [hp]
    | some tid => simp [hp, removeEv_sublist]

/-- How one event-loop step can change the queue, the task table and the
fetch log: either it adds nothing (possibly cancelling pending timers), or
it enqueues exactly one follow-up event for the very task the handled event
belonged to, or — for a `loadModel` call — it registers one fresh task
(with an id unused so far) and enqueues that task's first fetch. -/
theorem handle_spec (pl : Plan) (s : SimState) (e : QEvent) :
    s.nextId ≤ (handle pl s e).nextId ∧
    (((handle pl s e).queue.Sublist s.queue ∧ (handle pl s e).tasks = s.tasks ∧
        (handle pl s e).fetchLog = s.fetchLog) ∨
      (∃ x taskId, (handle pl s e).queue = insertEv x s.queue ∧
        evTask x.ev = some taskId ∧ evTask e.ev = some taskId ∧
        (handle pl s e).tasks = s.tasks ∧
        ((handle pl s e).fetchLog = s.fetchLog ∨
          ∃ t, lookupA s.tasks taskId = some t ∧
            (handle pl s e).fetchLog = s.fetchLog ++ [(s.now, t.modelId)])) ∨
      (∃ id o x, e.ev = .script (.callLoadModel id o) ∧
        (handle pl s e).queue = insertEv x s.queue ∧
        evTask x.ev = some (s.nextId + 2) ∧ s.nextId + 2 < (handle pl s e).nextId ∧
        (∃ t, (handle pl s e).tasks = s.tasks ++ [(s.nextId + 2, t)] ∧ t.modelId = id) ∧
        (handle pl s e).fetchLog = s.fetchLog ++ [(s.now, id)])) := by
  obtain ⟨tm, eid, ev⟩ := e
  cases ev with
  | script a =>
    cases a with
    | callLoadModel id o =>
      cases hc : lookupA s.cache ("model:" ++ id) with
      | some en =>
        by_cases hl : en.loaded = true
        · have hres : handle pl s ⟨tm, eid, .script (.callLoadModel id o)⟩ =
              { s with retLog := s.retLog ++ [some en.groupId] } := by
            simp [handle, handleLoadModel, hc, hl]
          rw [hres]
          exact ⟨Nat.le_refl _, Or.inl ⟨List.Sublist.refl _, rfl, rfl⟩⟩
        · have hres : handle pl s ⟨tm, eid, .script (.callLoadModel id o)⟩ =
              startModelLoad pl s id o := by
            simp [handle, handleLoadModel, hc, hl]
          rw [hres]
          obtain ⟨hq, hn, htk, hf⟩ := startModelLoad_spec pl s id o
          exact ⟨by rw [hn]; omega,
            Or.inr (Or.inr ⟨id, o, _, rfl, hq, rfl, by rw [hn]; omega, htk, hf⟩)⟩
      | none =>
        have hres : handle pl s ⟨tm, eid, .script (.callLoadModel id o)⟩ =
            startModelLoad pl s id o := by
          simp [handle, handleLoadModel, hc]
        rw [hres]
        obtain ⟨hq, hn, htk, hf⟩ := startModelLoad_spec pl s id o
        exact ⟨by rw [hn]; omega,
          Or.inr (Or.inr ⟨id, o, _, rfl, hq, rfl, by rw [hn]; omega, htk, hf⟩)⟩
    | callCancelPoll id =>
      have hres : handle pl s ⟨tm, eid, .script (.callCancelPoll id)⟩ =
          clearPollEntry s id := by
        simp [handle]
      rw [hres]
      obtain ⟨hq, hn, ht, hf, _⟩ := clearPollEntry_spec s id
      exact ⟨hn.ge, Or.inl ⟨hq, ht, hf⟩⟩
    | callClearCache =>
      have hres : handle pl s ⟨tm, eid, .script .callClearCache⟩ = handleClearCache s := by
        simp [handle]
      rw [hres]
      exact ⟨Nat.le_refl _, Or.inl ⟨List.filter_sublist _, rfl, rfl⟩⟩
    | externRemovePlaceholder gid =>
      cases hg : lookupA s.groups gid with
      | none =>
        have hres : handle pl s ⟨tm, eid, .script (.externRemovePlaceholder gid)⟩ = s := by
          simp [handle, handleRemovePlaceholder, hg]
        rw [hres]
        exact ⟨Nat.le_refl _, Or.inl ⟨List.Sublist.refl _, rfl, rfl⟩⟩
      | some children =>
        have hres : handle pl s ⟨tm, eid, .script (.externRemovePlaceholder gid)⟩ =
            { s with groups := setA s.groups gid (children.filter notPlaceholder) } := by
          simp [handle, handleRemovePlaceholder, hg]
        rw [hres]
        exact ⟨Nat.le_refl _, Or.inl ⟨List.Sublist.refl _, rfl, rfl⟩⟩
  | timerFired taskId =>
    cases ht : lookupA s.tasks taskId with
    | none =>
      have hres : handle pl s ⟨tm, eid, .timerFired taskId⟩ = s := by
        simp [handle, ht]
      rw [hres]
      exact ⟨Nat.le_refl _, Or.inl ⟨List.Sublist.refl _, rfl, rfl⟩⟩
    | some t =>
      have hres : handle pl s ⟨tm, eid, .timerFired taskId⟩ =
          dispatchFetch pl s taskId t.modelId := by
        simp [handle, ht]
      rw [hres]
      obtain ⟨hq, hn, htk, hf⟩ := dispatchFetch_spec pl s taskId t.modelId
      exact ⟨by rw [hn]; omega,
        Or.inr (Or.inl ⟨_, taskId, hq, rfl, rfl, htk, Or.inr ⟨t, ht, hf⟩⟩)⟩
  | fetchDone taskId res =>
    cases ht : lookupA s.tasks taskId with
    | none =>
      have hres : handle pl s ⟨tm, eid, .fetchDone taskId res⟩ = s := by
        simp [handle, handleFetchDone, ht]
      rw [hres]
      exact ⟨Nat.le_refl _, Or.inl ⟨List.Sublist.refl _, rfl, rfl⟩⟩
    | some t =>
      cases res with
      | mErr =>
        have hres : handle pl s ⟨tm, eid, .fetchDone taskId .mErr⟩ =
            retryIfAllowed { s with errLog := s.errLog ++ [(s.now, .fetchFailed)] }
              taskId t := by
          simp [handle, handleFetchDone, ht]
        rw [hres]
        obtain ⟨hn, hq, htk, hf⟩ :=
          retryIfAllowed_spec { s with errLog := s.errLog ++ [(s.now, .fetchFailed)] } taskId t
        rcases hq with hq | hq
        · refine ⟨hn, Or.inl ⟨?_, htk, hf⟩⟩
          rw [hq]
        · exact ⟨hn, Or.inr (Or.inl ⟨_, taskId, hq, rfl, rfl, htk, Or.inl hf⟩)⟩
      | mOk d =>
        cases hm : resolveMeshUrl d with
        | some u =>
          have hres : handle pl s ⟨tm, eid, .fetchDone taskId (.mOk d)⟩ =
              { s with
                loadLog := s.loadLog ++ [(s.now, t.modelId)],
                queue := insertEv ⟨s.now + pl.loadDur s.loadLog.length, s.nextId,
                  .loadDone taskId d (pl.loadPlan s.loadLog.length)⟩ s.queue,
                nextId := s.nextId + 1 } := by
            simp [handle, handleFetchDone, ht, hm]
          rw [hres]
          exact ⟨Nat.le_succ _,
            Or.inr (Or.inl ⟨_, taskId, rfl, rfl, rfl, rfl, Or.inl rfl⟩)⟩
        | none =>
          by_cases hp : (t.poll && decide (s.now - t.startTime < t.maxPollTime)) = true
          · have hres : handle pl s ⟨tm, eid, .fetchDone taskId (.mOk d)⟩ =
                scheduleRetry s taskId t := by
              simp [handle, handleFetchDone, ht, hm, hp]
            rw [hres]
            obtain ⟨hq, hn, htk, hf⟩ := scheduleRetry_spec s taskId t
            exact ⟨by rw [hn]; omega,
              Or.inr (Or.inl ⟨_, taskId, hq, rfl, rfl, htk, Or.inl hf⟩)⟩
          · by_cases hp2 : (!t.poll) = true
            · have hres : handle pl s ⟨tm, eid, .fetchDone taskId (.mOk d)⟩ = s := by
                simp [handle, handleFetchDone, ht, hm, hp, hp2]
              rw [hres]
              exact ⟨Nat.le_refl _, Or.inl ⟨List.Sublist.refl _, rfl, rfl⟩⟩
            · have hres : handle pl s ⟨tm, eid, .fetchDone taskId (.mOk d)⟩ =
                  { s with errLog := s.errLog ++ [(s.now, .maxPollReached t.modelId)] } := by
                simp [handle, handleFetchDone, ht, hm, hp, hp2]
              rw [hres]
              exact ⟨Nat.le_refl _, Or.inl ⟨List.Sublist.refl _, rfl, rfl⟩⟩
  | loadDone taskId d ok =>
    cases ht : lookupA s.tasks taskId with
    | none =>
      have hres : handle pl s ⟨tm, eid, .loadDone taskId d ok⟩ = s := by
        simp [handle, handleLoadDone, ht]
      rw [hres]
      exact ⟨Nat.le_refl _, Or.inl ⟨List.Sublist.refl _, rfl, rfl⟩⟩
    | some t =>
      cases ok with
      | false =>
        have hres : handle pl s ⟨tm, eid, .loadDone taskId d false⟩ =
            retryIfAllowed { s with errLog := s.errLog ++ [(s.now, .loadFailed)] }
              taskId t := by
          simp [handle, handleLoadDone, ht]
        rw [hres]
        obtain ⟨hn, hq, htk, hf⟩ :=
          retryIfAllowed_spec { s with errLog := s.errLog ++ [(s.now, .loadFailed)] } taskId t
        rcases hq with hq | hq
        · refine ⟨hn, Or.inl ⟨?_, htk, hf⟩⟩
          rw [hq]
        · exact ⟨hn, Or.inr (Or.inl ⟨_, taskId, hq, rfl, rfl, htk, Or.inl hf⟩)⟩
      | true =>
        have hres : handle pl s ⟨tm, eid, .loadDone taskId d true⟩ = swapInSuccess s t d := by
          simp [handle, handleLoadDone, ht]
        rw [hres]
        obtain ⟨hn, hq, htk, hf⟩ := swapInSuccess_spec s t d
        exact ⟨by rw [hn]; omega, Or.inl ⟨hq, htk, hf⟩⟩

theorem evBelowB_of_evTask {n : Nat} {x : QEvent} {taskId : Nat}
    (h : evBelowB n x = true) (he : evTask x.ev = some taskId) : taskId < n := by
  unfold evBelowB at h
  rw [he] at h
  simpa using h

theorem evBelowB_mono {n m : Nat} (hnm : n ≤ m) {x : QEvent} (h : evBelowB n x = true) :
    evBelowB m x = true := by
  unfold evBelowB at h ⊢
  cases hx : evTask x.ev with
  | none => simp
  | some taskId =>
    rw [hx] at h
    simp only [decide_eq_true_eq] at h ⊢
    omega

theorem pendingFor_zero_of_below {q : List QEvent} {n taskId : Nat}
    (hb : ∀ x ∈ q, evBelowB n x = true) (hτ : n ≤ taskId) : pendingFor taskId q = 0 := by
  unfold pendingFor
  rw [List.countP_eq_zero]
  intro x hx
  simp only [beq_iff_eq]
  intro hev
  have := evBelowB_of_evTask (hb x hx) hev
  omega

theorem pendingFor_cons (taskId : Nat) (e : QEvent) (rest : List QEvent) :
    pendingFor taskId (e :: rest) =
      pendingFor taskId rest + (if evTask e.ev == some taskId then 1 else 0) :=
  List.countP_cons _ _ _

theorem pendingFor_insertEv (taskId : Nat) (x : QEvent) (q : List QEvent) :
    pendingFor taskId (insertEv x q) =
      pendingFor taskId q + (if evTask x.ev == some taskId then 1 else 0) :=
  countP_insertEv _ _ _

theorem seqInv_step (pl : Plan) (s : SimState) (e : QEvent) (rest : List QEvent)
    (hq : s.queue = e :: rest) (hinv : seqInv s) :
    seqInv (handle pl { s with queue := rest, now := e.time } e) := by
  obtain ⟨hb, hc⟩ := hinv
  rw [hq] at hb hc
  have hbe : evBelowB s.nextId e = true := hb e (List.mem_cons_self _ _)
  have hbrest : ∀ x ∈ rest, evBelowB s.nextId x = true :=
    fun x hx => hb x (List.mem_cons_of_mem _ hx)
  have hcrest : ∀ taskId, pendingFor taskId rest ≤ 1 := by
    intro taskId
    have h1 := hc taskId
    rw [pendingFor_cons] at h1
    omega
  obtain ⟨hn, hcase⟩ := handle_spec pl { s with queue := rest, now := e.time } e
  dsimp only at hn
  rcases hcase with ⟨hsub, _, _⟩ | ⟨x, taskId, hqeq, hx, he, _, _⟩ |
    ⟨id, o, x, hev, hqeq, hx, hlt, _, _⟩
  · constructor
    · intro y hy
      exact evBelowB_mono hn (hbrest y (hsub.subset hy))
    · intro taskId
      exact le_trans (hsub.countP_le _) (hcrest taskId)
  · have hτ : taskId < s.nextId := evBelowB_of_evTask hbe he
    constructor
    · intro y hy
      rw [hqeq] at hy
      rcases mem_insertEv hy with rfl | hy2
      · unfold evBelowB
        rw [hx]
        simp only [decide_eq_true_eq]
        omega
      · exact evBelowB_mono hn (hbrest y hy2)
    · intro taskId'
      rw [show pendingFor taskId'
          (handle pl { s with queue := rest, now := e.time } e).queue =
          pendingFor taskId' (insertEv x rest) from by rw [hqeq],
        pendingFor_insertEv, hx]
      by_cases hττ : taskId = taskId'
      · subst hττ
        have h0 : pendingFor taskId rest = 0 := by
          have h1 := hc taskId
          rw [pendingFor_cons] at h1
          simp [he] at h1
          omega
        simp [h0]
      · have hfalse : (some taskId == some taskId') = false := by simp [hττ]
        rw [hfalse]
        simpa using hcrest taskId'
  · dsimp only at hlt hx
    constructor
    · intro y hy
      rw [hqeq] at hy
      rcases mem_insertEv hy with rfl | hy2
      · unfold evBelowB
        rw [hx]
        simp only [decide_eq_true_eq]
        omega
      · exact evBelowB_mono hn (hbrest y hy2)
    · intro taskId'
      rw [show pendingFor taskId'
          (handle pl { s with queue := rest, now := e.time } e).queue =
          pendingFor taskId' (insertEv x rest) from by rw [hqeq],
        pendingFor_insertEv, hx]
      by_cases hττ : s.nextId + 2 = taskId'
      · subst hττ
        have h0 : pendingFor (s.nextId + 2) rest = 0 :=
          pendingFor_zero_of_below hbrest (by omega)
        simp [h0]
      · have hfalse : (some (s.nextId + 2) == some taskId') = false := by simp [hττ]
        rw [hfalse]
        simpa using hcrest taskId'

theorem runSim_nil (pl : Plan) : ∀ fuel (s : SimState), s.queue = [] → runSim pl fuel s = s := by
  intro fuel s h
  cases fuel with
  | zero => rfl
  | succ n => simp [runSim, h]

theorem runSim_cons (pl : Plan) (fuel : Nat) (s : SimState) (e : QEvent)
    (rest : List QEvent) (hq : s.queue = e :: rest) :
    runSim pl (fuel + 1) s = runSim pl fuel (handle pl { s with queue := rest, now := e.time } e) := by
  simp [runSim, hq]

theorem seqInv_runSim (pl : Plan) : ∀ fuel (s : SimState), seqInv s → seqInv (runSim pl fuel s) := by
  intro fuel
  induction fuel with
  | zero => intro s h; exact h
  | succ n ih =>
    intro s h
    cases hq : s.queue with
    | nil => rw [runSim_nil pl _ s hq]; exact h
    | cons e rest =>
      rw [runSim_cons pl n s e rest hq]
      exact ih _ (seqInv_step pl s e rest hq h)

theorem initState_queue_scripts (script : List (Nat × SAction)) :
    ∀ x ∈ (initState script).queue, ∃ a, x.ev = .script a := by
  have main : ∀ (l : List (Nat × SAction)) (acc : List QEvent × Nat),
      (∀ x ∈ acc.1, ∃ a, x.ev = .script a) →
      ∀ x ∈ (l.foldl
        (fun (acc : List QEvent × Nat) p =>
          (insertEv ⟨p.1, acc.2, .script p.2⟩ acc.1, acc.2 + 1)) acc).1,
        ∃ a, x.ev = .script a := by
    intro l
    induction l with
    | nil => intro acc hacc x hx; exact hacc x hx
    | cons p ps ih =>
      intro acc hacc x hx
      refine ih _ ?_ x hx
      intro y hy
      rcases mem_insertEv hy with rfl | hy2
      · exact ⟨p.2, rfl⟩
      · exact hacc y hy2
  intro x hx
  exact main script ([], 0) (by intro y hy; cases hy) x hx

theorem seqInv_initState (script : List (Nat × SAction)) : seqInv (initState script) := by
  constructor
  · intro x hx
    obtain ⟨a, ha⟩ := initState_queue_scripts script x hx
    unfold evBelowB
    rw [ha]
    rfl
  · intro taskId
    have h0 : pendingFor taskId (initState script).queue = 0 := by
      unfold pendingFor
      rw [List.countP_eq_zero]
      intro x hx
      obtain ⟨a, ha⟩ := initState_queue_scripts script x hx
      simp [ha, evTask]
    omega

/-- C1 as amended: within one resolution task, attempts are strictly
sequential — in every run from a scripted start, each task has at most one
pending event (scheduled timer, in-flight fetch, or in-flight load) at any
time.  But the at-most-one guarantee is per task, not per model key: a
second loadModel call for the same id before the first resolution completes
starts a second task whose fetch runs concurrently with the first one's, as
the two-call scenario shows (two fetches in flight, two live tasks). -/
theorem model_task_sequential :
    (∀ (pl : Plan) (script : List (Nat × SAction)) (fuel taskId : Nat),
      pendingFor taskId (runSim pl fuel (initState script)).queue ≤ 1) ∧
    fetchesInFlight simTwoCalls = 2 ∧ simTwoCalls.tasks.length = 2 := by
  refine ⟨fun pl script fuel taskId =>
    (seqInv_runSim pl fuel _ (seqInv_initState script)).2 taskId, by decide, by decide⟩

theorem lookupA_some_mem {κ α : Type} [DecidableEq κ] :
    ∀ (l : List (κ × α)) (k : κ) (v : α), lookupA l k = some v → (k, v) ∈ l := by
  intro l k v h
  induction l with
  | nil => cases h
  | cons p rest ih =>
    obtain ⟨a, b⟩ := p
    by_cases hak : a = k
    · subst hak
      unfold lookupA at h
      rw [if_pos rfl] at h
      have hbv : b = v := by injection h
      subst hbv
      exact List.mem_cons_self _ _
    · simp only [lookupA, if_neg hak] at h
      exact List.mem_cons_of_mem _ (ih h)

theorem tasks_lookup_none_of_ge {s : SimState} (htb : tasksBelow s) {taskId : Nat}
    (hτ : s.nextId ≤ taskId) : lookupA s.tasks taskId = none := by
  cases h : lookupA s.tasks taskId with
  | none => rfl
  | some t =>
    have := htb (taskId, t) (lookupA_some_mem _ _ _ h)
    simp at this
    omega

theorem taskModel_eq_of_tasks_eq {s2 s1 : SimState} (h : s2.tasks = s1.tasks)
    (taskId : Nat) : taskModel s2 taskId = taskModel s1 taskId := by
  unfold taskModel
  rw [h]

theorem evQuietB_eq_of_tasks_eq {s2 s1 : SimState} (h : s2.tasks = s1.tasks)
    (k : String) (x : QEvent) : evQuietB s2 k x = evQuietB s1 k x := by
  unfold evQuietB
  cases hx : x.ev with
  | script a => cases a <;> rfl
  | timerFired taskId => dsimp only; rw [taskModel_eq_of_tasks_eq h]
  | fetchDone taskId res => dsimp only; rw [taskModel_eq_of_tasks_eq h]
  | loadDone taskId d ok => dsimp only; rw [taskModel_eq_of_tasks_eq h]

theorem taskModel_ne_of_quiet {s : SimState} {k : String} {e : QEvent} {taskId : Nat}
    (hq : evQuietB s k e = true) (he : evTask e.ev = some taskId) :
    (taskModel s taskId != some k) = true := by
  unfold evQuietB at hq
  cases hx : e.ev with
  | script a => rw [hx] at he; cases a <;> simp [evTask] at he
  | timerFired t2 => rw [hx] at he hq; simp [evTask] at he; rwa [he] at hq
  | fetchDone t2 r => rw [hx] at he hq; simp [evTask] at he; rwa [he] at hq
  | loadDone t2 d ok => rw [hx] at he hq; simp [evTask] at he; rwa [he] at hq

theorem evQuietB_of_task {s : SimState} {k : String} {x : QEvent} {taskId : Nat}
    (hx : evTask x.ev = some taskId) (hm : (taskModel s taskId != some k) = true) :
    evQuietB s k x = true := by
  unfold evQuietB
  cases he : x.ev with
  | script a => rw [he] at hx; cases a <;> simp [evTask] at hx
  | timerFired t2 => rw [he] at hx; simp [evTask] at hx; rwa [hx]
  | fetchDone t2 r => rw [he] at hx; simp [evTask] at hx; rwa [hx]
  | loadDone t2 d ok => rw [he] at hx; simp [evTask] at hx; rwa [hx]

theorem taskModel_append {s2 s1 : SimState} {fresh : Nat} {t : MTask}
    (hts : s2.tasks = s1.tasks ++ [(fresh, t)]) (taskId : Nat) :
    taskModel s2 taskId =
      (match lookupA s1.tasks taskId with
        | some v => some v.modelId
        | none => if fresh = taskId then some t.modelId else none) := by
  unfold taskModel
  rw [hts, lookupA_append]
  cases h : lookupA s1.tasks taskId with
  | some v => rfl
  | none =>
    by_cases hf : fresh = taskId
    · simp [lookupA, hf]
    · simp [lookupA, hf]

theorem quietInv_step (pl : Plan) (k : String) (s : SimState) (e : QEvent)
    (rest : List QEvent) (hq : s.queue = e :: rest) (hinv : quietInv k s) :
    quietInv k (handle pl { s with queue := rest, now := e.time } e) ∧
    fetchesFor k (handle pl { s with queue := rest, now := e.time } e) =
      fetchesFor k s := by
  obtain ⟨htb, hqb, hkq⟩ := hinv
  rw [hq] at hqb
  have hkq' := hkq
  unfold keyQuiet at hkq'
  rw [hq] at hkq'
  have hkqe : evQuietB s k e = true := hkq' e (List.mem_cons_self _ _)
  have hkqrest : ∀ x ∈ rest, evQuietB s k x = true :=
    fun x hx => hkq' x (List.mem_cons_of_mem _ hx)
  have hbe : evBelowB s.nextId e = true := hqb e (List.mem_cons_self _ _)
  have hbrest : ∀ x ∈ rest, evBelowB s.nextId x = true :=
    fun x hx => hqb x (List.mem_cons_of_mem _ hx)
  obtain ⟨hn, hcase⟩ := handle_spec pl { s with queue := rest, now := e.time } e
  dsimp only at hn
  rcases hcase with ⟨hsub, htk, hfl⟩ | ⟨x, taskId, hqeq, hx, he, htk, hfl⟩ |
    ⟨id, o, x, hev, hqeq, hx, hlt, ⟨t, htk, hmid⟩, hfl⟩
  · dsimp only at htk hfl
    refine ⟨⟨?_, ?_, ?_⟩, ?_⟩
    · intro p hp
      rw [htk] at hp
      have := htb p hp
      omega
    · intro y hy
      exact evBelowB_mono hn (hbrest y (hsub.subset hy))
    · intro y hy
      rw [evQuietB_eq_of_tasks_eq htk]
      exact hkqrest y (hsub.subset hy)
    · unfold fetchesFor
      rw [hfl]
  · dsimp only at htk hfl
    refine ⟨⟨?_, ?_, ?_⟩, ?_⟩
    · intro p hp
      rw [htk] at hp
      have := htb p hp
      omega
    · intro y hy
      rw [hqeq] at hy
      rcases mem_insertEv hy with rfl | hy2
      · have hτ : taskId < s.nextId := evBelowB_of_evTask hbe he
        unfold evBelowB
        rw [hx]
        simp only [decide_eq_true_eq]
        omega
      · exact evBelowB_mono hn (hbrest y hy2)
    · intro y hy
      rw [hqeq] at hy
      rcases mem_insertEv hy with rfl | hy2
      · refine evQuietB_of_task hx ?_
        rw [taskModel_eq_of_tasks_eq htk]
        exact taskModel_ne_of_quiet hkqe he
      · rw [evQuietB_eq_of_tasks_eq htk]
        exact hkqrest y hy2
    · rcases hfl with hfl | ⟨t, hlook, hfl⟩
      · unfold fetchesFor
        rw [hfl]
      · have hmne : (taskModel s taskId != some k) = true := taskModel_ne_of_quiet hkqe he
        have : t.modelId ≠ k := by
          unfold taskModel at hmne
          rw [hlook] at hmne
          simpa using hmne
        unfold fetchesFor
        rw [hfl, List.countP_append]
        simp [this]
  · dsimp only at htk hfl hx hlt
    have hidk : id ≠ k := by
      unfold evQuietB at hkqe
      rw [hev] at hkqe
      simpa using hkqe
    refine ⟨⟨?_, ?_, ?_⟩, ?_⟩
    · intro p hp
      rw [htk] at hp
      rcases List.mem_append.1 hp with hp1 | hp2
      · have := htb p hp1
        omega
      · simp only [List.mem_singleton] at hp2
        subst hp2
        show s.nextId + 2 < _
        omega
    · intro y hy
      rw [hqeq] at hy
      rcases mem_insertEv hy with rfl | hy2
      · unfold evBelowB
        rw [hx]
        simp only [decide_eq_true_eq]
        omega
      · exact evBelowB_mono hn (hbrest y hy2)
    · intro y hy
      rw [hqeq] at hy
      rcases mem_insertEv hy with rfl | hy2
      · refine evQuietB_of_task hx ?_
        rw [taskModel_append htk, tasks_lookup_none_of_ge htb (by omega)]
        simp [hmid, hidk]
      · cases hvy : evTask y.ev with
        | none =>
          unfold evQuietB
          cases hye : y.ev with
          | script a =>
            cases a with
            | callLoadModel id2 o2 =>
              have := hkqrest y hy2
              unfold evQuietB at this
              rw [hye] at this
              exact this
            | callCancelPoll id2 => rfl
            | callClearCache => rfl
            | externRemovePlaceholder gid => rfl
          | timerFired t2 => rw [hye] at hvy; simp [evTask] at hvy
          | fetchDone t2 r => rw [hye] at hvy; simp [evTask] at hvy
          | loadDone t2 d ok => rw [hye] at hvy; simp [evTask] at hvy
        | some τ =>
          have hτ : τ < s.nextId := evBelowB_of_evTask (hbrest y hy2) hvy
          refine evQuietB_of_task hvy ?_
          rw [taskModel_append htk]
          have hold : (taskModel s τ != some k) = true :=
            taskModel_ne_of_quiet (hkqrest y hy2) hvy
          unfold taskModel at hold
          cases hl : lookupA s.tasks τ with
          | some v =>
            rw [hl] at hold
            simpa using hold
          | none =>
            have : ¬ (s.nextId + 2 = τ) := by omega
            simp [this]
    · unfold fetchesFor
      rw [hfl, List.countP_append]
      simp [hidk]

theorem quietInv_runSim (pl : Plan) (k : String) :
    ∀ fuel (s : SimState), quietInv k s →
      quietInv k (runSim pl fuel s) ∧ fetchesFor k (runSim pl fuel s) = fetchesFor k s := by
  intro fuel
  induction fuel with
  | zero => intro s h; exact ⟨h, rfl⟩
  | succ n ih =>
    intro s h
    cases hq : s.queue with
    | nil => rw [runSim_nil pl _ s hq]; exact ⟨h, rfl⟩
    | cons e rest =>
      rw [runSim_cons pl n s e rest hq]
      obtain ⟨h1, h2⟩ := quietInv_step pl k s e rest hq h
      obtain ⟨h3, h4⟩ := ih _ h1
      exact ⟨h3, by rw [h4, h2]⟩

/-- C3 as amended: cancelPoll removes the key's poll-registry entry and
with it the pending scheduled timer, and in any state where nothing pending
belongs to the key — which is exactly the state after cancelling while no
attempt is in flight — not a single further fetch for that key is ever
dispatched, however long the simulation keeps running.  When an attempt is
still in flight at cancellation the guarantee fails, because its stale
callback re-registers a timer without checking registry membership (the
counterexample). -/
theorem cancelPoll_guarantee (k : String) (s : SimState)
    (hnd : (s.activePolls.map Prod.fst).Nodup) :
    lookupA (clearPollEntry s k).activePolls k = none ∧
    (∀ (pl : Plan) (fuel : Nat) (s1 : SimState), quietInv k s1 →
      fetchesFor k (runSim pl fuel s1) = fetchesFor k s1) := by
  constructor
  · unfold clearPollEntry
    cases hp : lookupA s.activePolls k with
    | none => exact hp
    | some tid =>
      show lookupA (removeA s.activePolls k) k = none
      exact lookupA_removeA_self _ _ hnd
  · intro pl fuel s1 hq1
    exact (quietInv_runSim pl k fuel s1 hq1).2

/-- Witness for the amended C3 theorem: the clean-cancel scenario satisfies
every hypothesis, its registry has no entry for the key after the cancel,
and ten further steps of simulation dispatch no further fetch for it. -/
theorem cancelPoll_guarantee_witness :
    (simCancelClean.activePolls.map Prod.fst).Nodup ∧ quietInv "m" simCancelClean ∧
    lookupA (clearPollEntry simCancelClean "m").activePolls "m" = none ∧
    fetchesFor "m" (runSim planNoMeshVerySlow 10 simCancelClean) =
      fetchesFor "m" simCancelClean :=
  ⟨by decide, by decide,
   (cancelPoll_guarantee "m" simCancelClean (by decide)).1,
   (cancelPoll_guarantee "m" simCancelClean (by decide)).2 planNoMeshVerySlow 10
     simCancelClean (by decide)⟩

theorem retryIfAllowed_cache (s : SimState) (taskId : Nat) (t : MTask) :
    (retryIfAllowed s taskId t).cache = s.cache := by
  unfold retryIfAllowed scheduleRetry
  split <;> rfl

theorem handleFetchDone_cache (pl : Plan) (s : SimState) (taskId : Nat) (res : MFetch) :
    (handleFetchDone pl s taskId res).cache = s.cache := by
  unfold handleFetchDone
  split
  · rfl
  · split
    · exact retryIfAllowed_cache _ _ _
    · split
      · rfl
      · split
        · rfl
        · split <;> rfl

theorem swapInSuccess_cache (s : SimState) (t : MTask) (d : ModelData) :
    (swapInSuccess s t d).cache = s.cache ∨
    (∃ en, lookupA s.cache ("model:" ++ t.modelId) = some en ∧
      (swapInSuccess s t d).cache =
        setA s.cache ("model:" ++ t.modelId) { en with loaded := true }) := by
  unfold swapInSuccess clearPollEntry
  cases hc : lookupA s.cache ("model:" ++ t.modelId) with
  | none =>
    left
    simp only [hc]
    cases hp : lookupA s.activePolls t.modelId <;> simp [hp]
  | some en =>
    right
    refine ⟨en, rfl, ?_⟩
    simp only [hc]
    cases hp : lookupA s.activePolls t.modelId <;> simp [hp]

theorem handle_cache_spec (pl : Plan) (s : SimState) (e : QEvent) :
    (handle pl s e).cache = s.cache ∨
    e.ev = .script .callClearCache ∨
    (∃ id gid, (handle pl s e).cache = setA s.cache ("model:" ++ id) ⟨gid, false⟩ ∧
      ∀ en, lookupA s.cache ("model:" ++ id) = some en → en.loaded = false) ∨
    (∃ key en, lookupA s.cache key = some en ∧
      (handle pl s e).cache = setA s.cache key { en with loaded := true }) := by
  obtain ⟨tm, eid, ev⟩ := e
  cases ev with
  | script a =>
    cases a with
    | callLoadModel id o =>
      cases hc : lookupA s.cache ("model:" ++ id) with
      | some en =>
        by_cases hl : en.loaded = true
        · exact Or.inl (by simp [handle, handleLoadModel, hc, hl])
        · refine Or.inr (Or.inr (Or.inl ⟨id, s.nextId, ?_, ?_⟩))
          · simp [handle, handleLoadModel, hc, hl, startModelLoad, dispatchFetch]
          · intro en2 hen2
            rw [hc] at hen2
            injection hen2 with h2
            subst h2
            simpa using hl
      | none =>
        refine Or.inr (Or.inr (Or.inl ⟨id, s.nextId, ?_, ?_⟩))
        · simp [handle, handleLoadModel, hc, startModelLoad, dispatchFetch]
        · intro en2 hen2
          rw [hc] at hen2
          cases hen2
    | callCancelPoll id =>
      exact Or.inl (clearPollEntry_spec s id).2.2.2.2
    | callClearCache => exact Or.inr (Or.inl rfl)
    | externRemovePlaceholder gid =>
      cases hg : lookupA s.groups gid with
      | none => exact Or.inl (by simp [handle, handleRemovePlaceholder, hg])
      | some children => exact Or.inl (by simp [handle, handleRemovePlaceholder, hg])
  | timerFired taskId =>
    cases ht : lookupA s.tasks taskId with
    | none => exact Or.inl (by simp [handle, ht])
    | some t => exact Or.inl (by simp [handle, ht, dispatchFetch])
  | fetchDone taskId res =>
    exact Or.inl (handleFetchDone_cache pl s taskId res)
  | loadDone taskId d ok =>
    cases ht : lookupA s.tasks taskId with
    | none => exact Or.inl (by simp [handle, handleLoadDone, ht])
    | some t =>
      cases ok with
      | false =>
        refine Or.inl ?_
        have hres : handle pl s ⟨tm, eid, .loadDone taskId d false⟩ =
            retryIfAllowed { s with errLog := s.errLog ++ [(s.now, .loadFailed)] }
              taskId t := by
          simp [handle, handleLoadDone, ht]
        rw [hres]
        exact retryIfAllowed_cache _ _ _
      | true =>
        have hres : handle pl s ⟨tm, eid, .loadDone taskId d true⟩ = swapInSuccess s t d := by
          simp [handle, handleLoadDone, ht]
        rw [hres]
        rcases swapInSuccess_cache s t d with h | ⟨en, hl, hc⟩
        · exact Or.inl h
        · exact Or.inr (Or.inr (Or.inr ⟨_, en, hl, hc⟩))

theorem evTask_ne_script {v : Event} {taskId : Nat} (h : evTask v = some taskId) :
    ∀ a, v ≠ .script a := by
  cases v <;> simp [evTask] at h ⊢

theorem cacheEntry_loaded_step (pl : Plan) (s : SimState) (e : QEvent) (key : String)
    (en : CacheEntry) (hen : lookupA s.cache key = some en) (hld : en.loaded = true)
    (hne : e.ev ≠ .script .callClearCache) :
    lookupA (handle pl s e).cache key = some en := by
  rcases handle_cache_spec pl s e with h | h | ⟨id, gid, hc, hcond⟩ | ⟨k2, en2, hl2, hc⟩
  · rw [h, hen]
  · exact absurd h hne
  · by_cases hk : ("model:" ++ id) = key
    · subst hk
      have hfalse := hcond en hen
      rw [hld] at hfalse
      cases hfalse
    · rw [hc, lookupA_setA_ne _ _ _ _ hk, hen]
  · by_cases hk : k2 = key
    · subst hk
      rw [hl2] at hen
      injection hen with hin
      subst hin
      rw [hc, lookupA_setA_self]
      obtain ⟨g, l⟩ := en2
      simp only [CacheEntry.loaded] at hld
      subst hld
      rfl
    · rw [hc, lookupA_setA_ne _ _ _ _ hk, hen]

theorem cacheEntry_loaded_runSim (pl : Plan) (key : String) (en : CacheEntry)
    (hld : en.loaded = true) :
    ∀ fuel (s : SimState), lookupA s.cache key = some en → noClearCache s.queue →
      lookupA (runSim pl fuel s).cache key = some en := by
  intro fuel
  induction fuel with
  | zero => intro s hen _; exact hen
  | succ n ih =>
    intro s hen hnc
    cases hq : s.queue with
    | nil => rw [runSim_nil pl _ s hq]; exact hen
    | cons e rest =>
      rw [runSim_cons pl n s e rest hq]
      rw [hq] at hnc
      have hne : e.ev ≠ .script .callClearCache := hnc e (List.mem_cons_self _ _)
      have hncr : ∀ x ∈ rest, x.ev ≠ .script .callClearCache :=
        fun x hx => hnc x (List.mem_cons_of_mem _ hx)
      have hstep := cacheEntry_loaded_step pl { s with queue := rest, now := e.time }
        e key en hen hld hne
      have hncnew : noClearCache (handle pl { s with queue := rest, now := e.time } e).queue := by
        obtain ⟨_, hcase⟩ := handle_spec pl { s with queue := rest, now := e.time } e
        rcases hcase with ⟨hsub, _, _⟩ | ⟨x, taskId, hqeq, hx, _, _, _⟩ |
          ⟨id, o, x, _, hqeq, hx, _, _, _⟩
        · intro y hy
          exact hncr y (hsub.subset hy)
        · intro y hy
          rw [hqeq] at hy
          rcases mem_insertEv hy with rfl | hy2
          · exact evTask_ne_script hx _
          · exact hncr y hy2
        · intro y hy
          rw [hqeq] at hy
          rcases mem_insertEv hy with rfl | hy2
          · exact evTask_ne_script hx _
          · exact hncr y hy2
      exact ih _ hstep hncnew

/-- C7: once a model key's cache entry is loaded (ready=true), it is
permanent — under any further execution that contains no explicit
clearCache call, the entry stays exactly the same (same container, still
loaded) — and every loadModel call for that id processed in such a state
returns the cached container immediately: the whole state change is the
recording of the returned group, with no new fetch, no new task and
nothing scheduled. -/
theorem loaded_entry_permanent (pl : Plan) (s : SimState) (id : String) (en : CacheEntry)
    (hen : lookupA s.cache ("model:" ++ id) = some en)
    (hld : en.loaded = true)
    (hnc : noClearCache s.queue) :
    (∀ fuel, lookupA (runSim pl fuel s).cache ("model:" ++ id) = some en) ∧
    (∀ tm eid o, handle pl s ⟨tm, eid, .script (.callLoadModel id o)⟩ =
      { s with retLog := s.retLog ++ [some en.groupId] }) := by
  constructor
  · intro fuel
    exact cacheEntry_loaded_runSim pl _ en hld fuel s hen hnc
  · intro tm eid o
    simp [handle, handleLoadModel, hen, hld]

/-- Witness for C7: in the fully loaded scenario the hypotheses hold, the
loaded entry survives five more steps of execution, and a repeated
loadModel call returns the cached group without any other state change. -/
theorem loaded_entry_permanent_witness :
    lookupA simLoadedOk.cache ("model:" ++ "m") = some ⟨1, true⟩ ∧
    noClearCache simLoadedOk.queue ∧
    lookupA (runSim planNoMeshFast 5 simLoadedOk).cache ("model:" ++ "m") = some ⟨1, true⟩ ∧
    handle planNoMeshFast simLoadedOk
        ⟨2000, 99, .script (.callLoadModel "m" ⟨none, none, none⟩)⟩ =
      { simLoadedOk with retLog := simLoadedOk.retLog ++ [some 1] } :=
  ⟨by decide, by decide,
   (loaded_entry_permanent planNoMeshFast simLoadedOk "m" ⟨1, true⟩ (by decide) rfl
     (by decide)).1 5,
   (loaded_entry_permanent planNoMeshFast simLoadedOk "m" ⟨1, true⟩ (by decide) rfl
     (by decide)).2 2000 99 ⟨none, none, none⟩⟩

/-! ### The swap transition (C8) -/

/-- C8 as amended: on a successful artifact load, the swap transition does
all of the following in one step: if the placeholder is still attached to
its container it is detached and its disposable resources are released,
while if it was externally removed both detachment and release are skipped
without error; in both cases the final artifact (scene) is attached in its
place, the cache entry is marked loaded (ready), the poll-registry entry
for the key is cleared, the swap-completion callback is invoked exactly
once by this transition, and nothing further is scheduled (no event is
added to the queue, so no further attempts occur for this task). -/
theorem swap_transition (s : SimState) (t : MTask) (d : ModelData) (p : Nat)
    (ch : List Child) (en : CacheEntry)
    (hp : t.placeholder = some p)
    (hg : lookupA s.groups t.groupId = some ch)
    (hen : lookupA s.cache ("model:" ++ t.modelId) = some en)
    (hnd : (s.activePolls.map Prod.fst).Nodup) :
    lookupA (swapInSuccess s t d).groups t.groupId =
      some ((if ch.contains (Child.ph p) = true then ch.erase (Child.ph p) else ch) ++
        [Child.scene s.nextId]) ∧
    (swapInSuccess s t d).disposed =
      (if ch.contains (Child.ph p) = true then s.disposed ++ [p] else s.disposed) ∧
    lookupA (swapInSuccess s t d).cache ("model:" ++ t.modelId) =
      some { en with loaded := true } ∧
    lookupA (swapInSuccess s t d).activePolls t.modelId = none ∧
    (swapInSuccess s t d).swapLog = s.swapLog ++ [(s.now, t.modelId, s.nextId, d)] ∧
    (swapInSuccess s t d).queue.Sublist s.queue := by
  by_cases hcon : ch.contains (Child.ph p) = true
  · have hmem : Child.ph p ∈ ch := by simpa using hcon
    cases hap : lookupA s.activePolls t.modelId with
    | none =>
      have hform : swapInSuccess s t d =
          { s with
            nextId := s.nextId + 1,
            groups := setA s.groups t.groupId (ch.erase (Child.ph p) ++ [Child.scene s.nextId]),
            disposed := s.disposed ++ [p],
            cache := setA s.cache ("model:" ++ t.modelId) { en with loaded := true },
            swapLog := s.swapLog ++ [(s.now, t.modelId, s.nextId, d)] } := by
        simp [swapInSuccess, clearPollEntry, hp, hg, hen, hcon, hap, hmem]
      rw [hform, if_pos hcon, if_pos hcon]
      exact ⟨lookupA_setA_self _ _ _, rfl, lookupA_setA_self _ _ _, hap, rfl,
        List.Sublist.refl _⟩
    | some tid =>
      have hform : swapInSuccess s t d =
          { s with
            nextId := s.nextId + 1,
            groups := setA s.groups t.groupId (ch.erase (Child.ph p) ++ [Child.scene s.nextId]),
            disposed := s.disposed ++ [p],
            cache := setA s.cache ("model:" ++ t.modelId) { en with loaded := true },
            queue := removeEv tid s.queue,
            activePolls := removeA s.activePolls t.modelId,
            swapLog := s.swapLog ++ [(s.now, t.modelId, s.nextId, d)] } := by
        simp [swapInSuccess, clearPollEntry, hp, hg, hen, hcon, hap, hmem]
      rw [hform, if_pos hcon, if_pos hcon]
      exact ⟨lookupA_setA_self _ _ _, rfl, lookupA_setA_self _ _ _,
        lookupA_removeA_self _ _ hnd, rfl, removeEv_sublist _ _⟩
  · have hmem : Child.ph p ∉ ch := by simpa using hcon
    cases hap : lookupA s.activePolls t.modelId with
    | none =>
      have hform : swapInSuccess s t d =
          { s with
            nextId := s.nextId + 1,
            groups := setA s.groups t.groupId (ch ++ [Child.scene s.nextId]),
            cache := setA s.cache ("model:" ++ t.modelId) { en with loaded := true },
            swapLog := s.swapLog ++ [(s.now, t.modelId, s.nextId, d)] } := by
        simp [swapInSuccess, clearPollEntry, hp, hg, hen, hcon, hap, hmem]
      rw [hform, if_neg hcon, if_neg hcon]
      exact ⟨lookupA_setA_self _ _ _, rfl, lookupA_setA_self _ _ _, hap, rfl,
        List.Sublist.refl _⟩
    | some tid =>
      have hform : swapInSuccess s t d =
          { s with
            nextId := s.nextId + 1,
            groups := setA s.groups t.groupId (ch ++ [Child.scene s.nextId]),
            cache := setA s.cache ("model:" ++ t.modelId) { en with loaded := true },
            queue := removeEv tid s.queue,
            activePolls := removeA s.activePolls t.modelId,
            swapLog := s.swapLog ++ [(s.now, t.modelId, s.nextId, d)] } := by
        simp [swapInSuccess, clearPollEntry, hp, hg, hen, hcon, hap, hmem]
      rw [hform, if_neg hcon, if_neg hcon]
      exact ⟨lookupA_setA_self _ _ _, rfl, lookupA_setA_self _ _ _,
        lookupA_removeA_self _ _ hnd, rfl, removeEv_sublist _ _⟩

/-- Witness for C8's amended theorem: the pre-swap scenario satisfies the
hypotheses of the swap transition, and applying it (still-attached case)
yields the detached placeholder, its disposal, and the attached scene. -/
theorem swap_transition_witness :
    preSwapTask.placeholder = some 2 ∧
    lookupA simPreSwap.groups preSwapTask.groupId = some [Child.ph 2] ∧
    lookupA (swapInSuccess simPreSwap preSwapTask meshData).groups preSwapTask.groupId =
      some ((if ([Child.ph 2] : List Child).contains (Child.ph 2) = true then
        ([Child.ph 2] : List Child).erase (Child.ph 2) else [Child.ph 2]) ++
        [Child.scene simPreSwap.nextId]) ∧
    (swapInSuccess simPreSwap preSwapTask meshData).disposed =
      (if ([Child.ph 2] : List Child).contains (Child.ph 2) = true then
        simPreSwap.disposed ++ [2] else simPreSwap.disposed) :=
  ⟨rfl, by decide,
   (swap_transition simPreSwap preSwapTask meshData 2 [Child.ph 2] ⟨1, false⟩ rfl (by decide)
     (by decide) (by decide)).1,
   (swap_transition simPreSwap preSwapTask meshData 2 [Child.ph 2] ⟨1, false⟩ rfl (by decide)
     (by decide) (by decide)).2.1⟩

end BuuAssets
